import Mathlib

/-!
Verification development for the sync-shuttle core (bucketcast repository).

The repository consists of two Python files:
  * `src/lib/config_parser.py` — the server registry over a TOML document
    (list/get/get-field/set/add/remove, bash-variable export, full-document
    rewrite serialization);
  * `src/tui/sync_tui.py` — the operation ledger reader (`load_operations`),
    the remote-listing cache reader (`_load_remote_files`), the file catalog
    (`_load_location_files`, `FileBrowser._populate_tree`) and the size/search
    helpers.

Each definition below is a direct shallow embedding of the corresponding
Python function, translated statement by statement.  Python `dict`s (which
preserve insertion order) are modelled as association lists; Python strings
are Lean `String`s restricted in places to the ASCII fragment, noted per
definition.  Files are modelled by their textual content (`Option String`:
`none` for an absent file).  All definitions are plain structural recursion
so that concrete instances evaluate inside the kernel.
-/

/-! ## Character and string helpers

Characters that interact badly with quoting are produced via `Char.ofNat`:
39 is the single quote, 92 the backslash, 34 the double quote, 10 newline.
-/

def sqChar : Char := Char.ofNat 39

def bsChar : Char := Char.ofNat 92

def dqChar : Char := Char.ofNat 34

def nlChar : Char := Char.ofNat 10

def tabChar : Char := Char.ofNat 9

/-- ASCII lowercase letter or digit, the character class `[a-z0-9]`. -/
def isLowerDigit (c : Char) : Bool :=
  (decide ('a' ≤ c) && decide (c ≤ 'z')) || (decide ('0' ≤ c) && decide (c ≤ '9'))

/-- ASCII digit `[0-9]`.  Python's `str.isdigit` is true on further Unicode
digit-property characters (e.g. superscripts) where `int()` then fails; that
non-ASCII corner is outside this model, which covers the ASCII fragment the
configuration tool works with. -/
def isDigitChar (c : Char) : Bool :=
  decide ('0' ≤ c) && decide (c ≤ '9')

/-- ASCII lowercasing, the fragment of Python `str.lower` exercised here. -/
def lowerChar (c : Char) : Char :=
  if decide ('A' ≤ c) && decide (c ≤ 'Z') then Char.ofNat (c.toNat + 32) else c

def pyLower (s : String) : String :=
  String.mk (s.data.map lowerChar)

/-- Whitespace stripped by Python `str.strip()` (space, tab, LF, CR, VT, FF). -/
def pySpace (c : Char) : Bool :=
  c = ' ' || c.toNat = 9 || c.toNat = 10 || c.toNat = 13 || c.toNat = 11 || c.toNat = 12

def stripChars (cs : List Char) : List Char :=
  ((cs.dropWhile pySpace).reverse.dropWhile pySpace).reverse

/-- Python `str.strip()`. -/
def pyStrip (s : String) : String :=
  String.mk (stripChars s.data)

/-- Python `str.split(sep)` semantics on a single separator character:
the empty input yields `[[]]`, N separators yield N+1 pieces. -/
def splitOnChar (sep : Char) : List Char → List (List Char)
  | [] => [[]]
  | c :: rest =>
    if c = sep then [] :: splitOnChar sep rest
    else
      match splitOnChar sep rest with
      | [] => [[c]]
      | l :: ls => (c :: l) :: ls

/-- Split a string into its physical lines, Python `s.split("\n")`. -/
def splitNl (s : String) : List String :=
  (splitOnChar nlChar s.data).map (fun cs => String.mk cs)

/-- Join line contents with newline characters, Python `"\n".join(lines)`. -/
def joinC : List (List Char) → List Char
  | [] => []
  | [l] => l
  | l :: l' :: ls => l ++ nlChar :: joinC (l' :: ls)

def joinNl (lines : List String) : String :=
  String.mk (joinC (lines.map String.data))

/-- Does `cs` start with the segment `pre`? -/
def startsWithSeg : List Char → List Char → Bool
  | [], _ => true
  | _ :: _, [] => false
  | p :: ps, c :: cs => (p = c) && startsWithSeg ps cs

/-- Does `cs` end with the segment `suf`? -/
def endsWithSeg (suf cs : List Char) : Bool :=
  decide (suf.length ≤ cs.length) && decide (cs.drop (cs.length - suf.length) = suf)

/-- Does `cs` contain the segment `seg` (contiguously)? -/
def containsSeg (seg : List Char) : List Char → Bool
  | [] => seg.isEmpty
  | c :: rest => startsWithSeg seg (c :: rest) || containsSeg seg rest

/-- Numeric value of a list of ASCII digit characters. -/
def digitsToNat (cs : List Char) : Nat :=
  cs.foldl (fun a c => a * 10 + (c.toNat - 48)) 0

/-- Decimal rendering of a natural number, fuel-indexed so that it is
structurally recursive (the fuel argument strictly exceeds the number of
decimal digits whenever `fuel > n`). -/
def natDecimalAux : Nat → Nat → List Char
  | 0, _ => []
  | fuel + 1, n =>
    if n < 10 then [Char.ofNat (48 + n)]
    else natDecimalAux fuel (n / 10) ++ [Char.ofNat (48 + n % 10)]

/-- Decimal rendering of a natural number, as printed by Python `str`. -/
def natDecimalStr (n : Nat) : String :=
  String.mk (natDecimalAux (n + 1) n)

/-- Decimal rendering of an integer, as printed by Python `str`. -/
def intDecimalStr (n : Int) : String :=
  if n < 0 then "-" ++ natDecimalStr (-n).toNat else natDecimalStr n.toNat

/-- Generic associative-list lookup (first matching key wins), modelling
`dict.__getitem__` / `dict.get` on insertion-ordered Python dicts. -/
def lookupA {α : Type} (k : String) : List (String × α) → Option α
  | [] => none
  | p :: rest => if p.1 = k then some p.2 else lookupA k rest

/-- Replace the value stored at the first occurrence of key `k`. -/
def replaceA {α : Type} (k : String) (v : α) : List (String × α) → List (String × α)
  | [] => []
  | p :: rest => if p.1 = k then (p.1, v) :: rest else p :: replaceA k v rest

/-- Generic insertion sort on a boolean `le`, modelling Python `sorted`
(which sorts strings lexicographically by code point). -/
def insertLe {α : Type} (le : α → α → Bool) (a : α) : List α → List α
  | [] => [a]
  | b :: rest => if le a b then a :: b :: rest else b :: insertLe le a rest

def sortLe {α : Type} (le : α → α → Bool) : List α → List α
  | [] => []
  | a :: rest => insertLe le a (sortLe le rest)

/-- Lexicographic code-point comparison of character lists, the order Python
uses to compare strings. -/
def charsLe : List Char → List Char → Bool
  | [], _ => true
  | _ :: _, [] => false
  | a :: as, b :: bs =>
    if a.toNat < b.toNat then true
    else if b.toNat < a.toNat then false
    else charsLe as bs

/-! ## Server registry data model (`config_parser.py`)

A TOML-parsed field value is a boolean, an integer or a string; `pother`
stands for any richer TOML value (array, date, table) that the registry
serializer skips.  A server is its insertion-ordered field table; the
registry is the insertion-ordered table of servers, i.e. the value of the
top-level `servers` key of the parsed document. -/

inductive PyVal where
  | pbool (b : Bool)
  | pint (n : Int)
  | pstr (s : String)
  | pother
deriving DecidableEq, Repr

abbrev Server := List (String × PyVal)

abbrev Registry := List (String × Server)

/-- Python truthiness of a TOML value (`bool(v)`): `False`, `0` and `""` are
falsy.  `pother` values (arrays, dates) are treated as truthy, which matches
every non-empty such value. -/
def pyTruthy : PyVal → Bool
  | PyVal.pbool b => b
  | PyVal.pint n => !(n = 0)
  | PyVal.pstr s => !(s = "")
  | PyVal.pother => true

/-- Python `str(v)` for a TOML scalar: note `str(True) = "True"`. -/
def pyStr : PyVal → String
  | PyVal.pbool b => if b then "True" else "False"
  | PyVal.pint n => intDecimalStr n
  | PyVal.pstr s => s
  | PyVal.pother => "<other>"

/-- Core of the server-id regular expression
`^[a-z0-9][a-z0-9-]{1,30}[a-z0-9]$` understood as anchored at both ends:
3 to 32 characters, first and last in `[a-z0-9]`, the middle in
`[a-z0-9-]`. -/
def idCoreMatch (cs : List Char) : Bool :=
  decide (3 ≤ cs.length) && decide (cs.length ≤ 32) &&
  (match cs.head? with
   | some c => isLowerDigit c
   | none => false) &&
  (match cs.getLast? with
   | some c => isLowerDigit c
   | none => false) &&
  (cs.drop 1).dropLast.all (fun c => isLowerDigit c || c = '-')

/-- What CPython's `re.match(r'^[a-z0-9][a-z0-9-]{1,30}[a-z0-9]$', s)`
actually accepts: without `re.MULTILINE`, `$` matches at the end of the
string *or just before a trailing newline*, so `"aaa\n"` is accepted. -/
def pyIdValid (s : String) : Bool :=
  idCoreMatch s.data ||
  (match s.data.getLast? with
   | some c => (c = nlChar) && idCoreMatch s.data.dropLast
   | none => false)

/-- Modelled from the spec: the id format rule `^[a-z0-9][a-z0-9-]{1,30}[a-z0-9]$`
read as a fully anchored regular expression ("3-32 chars, lowercase
alphanumeric with dashes", as the code's own error message also documents).
This is the specification-side definition used to compare with `pyIdValid`,
the code-side one. -/
def specIdFormatRule (s : String) : Bool :=
  idCoreMatch s.data

/-- The default profile installed by `add_server`. -/
def defaultServer (id : String) : Server :=
  [("name", PyVal.pstr id), ("host", PyVal.pstr ("")), ("port", PyVal.pint 22),
   ("user", PyVal.pstr ("")), ("remote_base", PyVal.pstr ("")),
   ("enabled", PyVal.pbool false), ("s3_backup", PyVal.pbool false)]

inductive AddErr where
  | alreadyExists
  | invalidId
deriving DecidableEq, Repr

/-- `add_server` (config_parser.py:186-215): duplicate check first, then the
id-format check, then install the default profile (persisting is modelled by
returning the updated registry; `write_toml` is embedded separately). -/
def addServer (servers : Registry) (id : String) : Except AddErr Registry :=
  match lookupA id servers with
  | some _ => Except.error AddErr.alreadyExists
  | none =>
    if pyIdValid id then Except.ok (servers ++ [(id, defaultServer id)])
    else Except.error AddErr.invalidId

/-- Type coercion performed by `set_field` (config_parser.py:173-179):
`"true"`/`"false"` case-insensitively become booleans, all-digit strings
become integers, everything else stays a string. -/
def coerceValue (v : String) : PyVal :=
  if pyLower v = "true" then PyVal.pbool true
  else if pyLower v = "false" then PyVal.pbool false
  else if !v.data.isEmpty && v.data.all isDigitChar then
    PyVal.pint (digitsToNat v.data : Int)
  else PyVal.pstr v

/-- `servers[server_id][field] = value`: replace in place if the key exists,
append otherwise (Python dict assignment). -/
def updateField (k : String) (v : PyVal) : Server → Server
  | [] => [(k, v)]
  | p :: rest => if p.1 = k then (p.1, v) :: rest else p :: updateField k v rest

inductive SetErr where
  | notFound
deriving DecidableEq, Repr

/-- `set_field` (config_parser.py:161-183): error if the server is absent
(the registry is left unchanged — the process exits before any write),
otherwise store the coerced value and rewrite the document. -/
def setField (servers : Registry) (id field value : String) : Except SetErr Registry :=
  match lookupA id servers with
  | none => Except.error SetErr.notFound
  | some s => Except.ok (replaceA id (updateField field (coerceValue value) s) servers)

inductive FieldErr where
  | serverNotFound
  | fieldNotFound
deriving DecidableEq, Repr

/-- `get_field` (config_parser.py:124-139).  The source tests
`server.get(field) is None`; values in a `tomllib`-parsed dict are never
`None` (TOML has no null), so that test is exactly "the key is absent",
which is how the absence of a `none`-like constructor in `PyVal` is
faithful. -/
def getField (servers : Registry) (id field : String) : Except FieldErr PyVal :=
  match lookupA id servers with
  | none => Except.error FieldErr.serverNotFound
  | some s =>
    match lookupA field s with
    | none => Except.error FieldErr.fieldNotFound
    | some v => Except.ok v

/-- Single-quote escaping in `get_server_bash`: each `'` in the string
becomes `'\''` (`str.replace("'", "'\\''")`). -/
def escapeQ (s : String) : String :=
  String.mk (s.data.flatMap (fun c => if c = sqChar then [sqChar, bsChar, sqChar, sqChar] else [c]))

def sqStr : String := String.mk [sqChar]

inductive BashErr where
  | notFound
  | disabled
deriving DecidableEq, Repr

/-- The local `user = server.get('user', '')` rendered as a string (the
value is interpolated into f-strings, i.e. passed through `str`). -/
def bashUser (server : Server) : String :=
  pyStr ((lookupA ("user") server).getD (PyVal.pstr ("")))

/-- The local `remote_base = server.get('remote_base') or default_remote_base`
where `default_remote_base = f"/home/{user}/.sync-shuttle" if user else ""`:
a falsy stored value (absent, empty, zero, false) falls back to the
default. -/
def bashRemoteBase (server : Server) : String :=
  let userS := bashUser server
  let defaultRB := if userS = "" then "" else "/home/" ++ userS ++ "/.sync-shuttle"
  match lookupA ("remote_base") server with
  | some v => if pyTruthy v then pyStr v else defaultRB
  | none => defaultRB

/-- The seven `key='value'` output lines of `get_server_bash`, in source
order. -/
def bashLines (id : String) (server : Server) : List String :=
  ["server_name=" ++ sqStr ++ escapeQ (pyStr ((lookupA ("name") server).getD (PyVal.pstr id))) ++ sqStr,
   "server_host=" ++ sqStr ++ escapeQ (pyStr ((lookupA ("host") server).getD (PyVal.pstr ("")))) ++ sqStr,
   "server_port=" ++ sqStr ++ escapeQ (pyStr ((lookupA ("port") server).getD (PyVal.pint 22))) ++ sqStr,
   "server_user=" ++ sqStr ++ escapeQ (bashUser server) ++ sqStr,
   "server_identity_file=" ++ sqStr ++ escapeQ (pyStr ((lookupA ("identity_file") server).getD (PyVal.pstr ("")))) ++ sqStr,
   "server_remote_base=" ++ sqStr ++ escapeQ (bashRemoteBase server) ++ sqStr,
   "server_s3_backup=" ++ sqStr ++ escapeQ (pyLower (pyStr ((lookupA ("s3_backup") server).getD (PyVal.pbool false)))) ++ sqStr]

/-- `get_server_bash` (config_parser.py:53-86): `NotFound` if the server is
absent, `Disabled` if its `enabled` value is falsy, otherwise the seven
`key='value'` lines in fixed order, with single-quote escaping and the
`remote_base` default derivation. -/
def getServerBash (servers : Registry) (id : String) : Except BashErr (List String) :=
  match lookupA id servers with
  | none => Except.error BashErr.notFound
  | some server =>
    if !pyTruthy ((lookupA ("enabled") server).getD (PyVal.pbool false)) then
      Except.error BashErr.disabled
    else
      Except.ok (bashLines id server)

/-! ## TOML serialization and reloading (`write_toml`, `load_config`, `list_servers`)

`write_toml` (config_parser.py:142-158) rewrites the whole document: a
comment line, a blank line, then per server a `[servers.<id>]` header and
one `key = value` line per boolean/integer/string field, each section
followed by a blank line; the lines are joined with `"\n"`.

Reloading goes through `tomllib.load`.  The parser below embeds the fragment
of TOML that these documents exercise: comments, blank lines, table headers
with dotted bare keys, and `key = value` lines whose value is a basic
string, `true`/`false`, or a decimal integer.  Where the real grammar is
wider (quoted keys, dates, floats, `\uXXXX` escapes, underscores in
integers, leading-zero rejection) no evaluated document reaches the
difference; the divergences are noted inline. -/

inductive Toml where
  | vbool (b : Bool)
  | vint (n : Int)
  | vstr (s : String)
  | vtable (t : List (String × Toml))
deriving Repr

/-- Emitted text for a scalar field value; `none` for values `write_toml`
skips (its `isinstance` chain covers bool, int, str only). -/
def renderVal : PyVal → Option String
  | PyVal.pbool b => some (if b then "true" else "false")
  | PyVal.pint n => some (intDecimalStr n)
  | PyVal.pstr s => some (String.mk [dqChar] ++ s ++ String.mk [dqChar])
  | PyVal.pother => none

def fieldLine (k : String) (v : PyVal) : Option String :=
  (renderVal v).map (fun r => k ++ " = " ++ r)

def serverLines (id : String) (s : Server) : List String :=
  ("[servers." ++ id ++ "]") :: (s.filterMap (fun p => fieldLine p.1 p.2) ++ [""])

/-- The full line list written by `write_toml`. -/
def tomlLines (servers : Registry) : List String :=
  ["# Sync Shuttle - Server Configuration", ""] ++
    servers.flatMap (fun p => serverLines p.1 p.2)

/-- `write_toml`: the document text written to the config file. -/
def writeTomlDoc (servers : Registry) : String :=
  joinNl (tomlLines servers)

/-! ### TOML parser fragment (tomllib) -/

inductive PErr where
  | bad
deriving DecidableEq, Repr

/-- TOML inline whitespace. -/
def wsChar (c : Char) : Bool :=
  c = ' ' || c = tabChar

/-- TOML bare-key character `[A-Za-z0-9_-]`. -/
def bareChar (c : Char) : Bool :=
  (decide ('a' ≤ c) && decide (c ≤ 'z')) || (decide ('A' ≤ c) && decide (c ≤ 'Z')) ||
  (decide ('0' ≤ c) && decide (c ≤ '9')) || c = '-' || c = '_'

/-- Characters allowed unescaped inside a TOML basic string: anything except
the quote, the backslash, and control characters (tab excepted). -/
def okStrChar (c : Char) : Bool :=
  !(c = dqChar) && !(c = bsChar) && (c = tabChar || !(c.toNat < 32 || c.toNat = 127))

/-- The single-character escapes of TOML basic strings (`\uXXXX`/`\UXXXXXXXX`
are not modelled; no evaluated document contains them). -/
def escChar (c : Char) : Option Char :=
  if c = dqChar then some dqChar
  else if c = bsChar then some bsChar
  else if c = 'n' then some nlChar
  else if c = 't' then some tabChar
  else if c = 'r' then some (Char.ofNat 13)
  else if c = 'b' then some (Char.ofNat 8)
  else if c = 'f' then some (Char.ofNat 12)
  else none

/-- Scan the body of a basic string up to the closing quote, returning the
decoded content and the remainder of the line. -/
def scanStr : List Char → Except PErr (List Char × List Char)
  | [] => Except.error PErr.bad
  | c :: rest =>
    if c = dqChar then Except.ok ([], rest)
    else if c = bsChar then
      match rest with
      | [] => Except.error PErr.bad
      | e :: rest2 =>
        match escChar e with
        | none => Except.error PErr.bad
        | some ec =>
          match scanStr rest2 with
          | Except.error err => Except.error err
          | Except.ok (s, r) => Except.ok (ec :: s, r)
    else if okStrChar c then
      match scanStr rest with
      | Except.error err => Except.error err
      | Except.ok (s, r) => Except.ok (c :: s, r)
    else Except.error PErr.bad

/-- Nothing but whitespace or a comment may follow a value or header. -/
def lineEndOk (cs : List Char) : Bool :=
  match cs.dropWhile wsChar with
  | [] => true
  | c :: _ => c = '#'

/-- A value token stops at whitespace or a comment sign. -/
def tokChar (c : Char) : Bool :=
  !wsChar c && !(c = '#')

def digitsVal (cs : List Char) : Option Nat :=
  if !cs.isEmpty && cs.all isDigitChar then some (digitsToNat cs) else none

/-- Decimal integer token.  tomllib additionally rejects leading zeros and
accepts `_` separators; documents written by `write_toml` contain neither. -/
def parseIntTok : List Char → Option Int
  | [] => none
  | c :: rest =>
    if c = '-' then (digitsVal rest).map (fun n => -(n : Int))
    else if c = '+' then (digitsVal rest).map (fun n => (n : Int))
    else (digitsVal (c :: rest)).map (fun n => (n : Int))

/-- Parse a value starting at `cs`, returning it with the remainder. -/
def parseValueC (cs : List Char) : Except PErr (Toml × List Char) :=
  match cs with
  | [] => Except.error PErr.bad
  | c :: rest =>
    if c = dqChar then
      match scanStr rest with
      | Except.error e => Except.error e
      | Except.ok (s, r) => Except.ok (Toml.vstr (String.mk s), r)
    else
      let tok := cs.takeWhile tokChar
      let r := cs.dropWhile tokChar
      if tok = ("true").data then Except.ok (Toml.vbool true, r)
      else if tok = ("false").data then Except.ok (Toml.vbool false, r)
      else
        match parseIntTok tok with
        | some n => Except.ok (Toml.vint n, r)
        | none => Except.error PErr.bad

/-- Parse the dotted bare-key path of a table header after the `[`, fuel
strictly above the remaining length. -/
def parsePath : Nat → List Char → Except PErr (List String)
  | 0, _ => Except.error PErr.bad
  | fuel + 1, cs =>
    let seg := cs.takeWhile bareChar
    let r := cs.dropWhile bareChar
    if seg.isEmpty then Except.error PErr.bad
    else
      match r with
      | [] => Except.error PErr.bad
      | c :: r2 =>
        if c = ']' then
          if lineEndOk r2 then Except.ok [String.mk seg] else Except.error PErr.bad
        else if c = '.' then
          match parsePath fuel r2 with
          | Except.error e => Except.error e
          | Except.ok segs => Except.ok (String.mk seg :: segs)
        else Except.error PErr.bad

inductive TLine where
  | header (path : List String)
  | kv (k : String) (v : Toml)
deriving Repr

/-- Classify one physical line: `none` for blank/comment lines. -/
def parseLineC (cs : List Char) : Except PErr (Option TLine) :=
  let cs1 := cs.dropWhile wsChar
  match cs1 with
  | [] => Except.ok none
  | c :: rest =>
    if c = '#' then Except.ok none
    else if c = '[' then
      match parsePath (rest.length + 1) rest with
      | Except.error e => Except.error e
      | Except.ok p => Except.ok (some (TLine.header p))
    else
      let keyCs := cs1.takeWhile bareChar
      let r1 := cs1.dropWhile bareChar
      if keyCs.isEmpty then Except.error PErr.bad
      else
        match r1.dropWhile wsChar with
        | [] => Except.error PErr.bad
        | e :: r3 =>
          if e = '=' then
            match parseValueC (r3.dropWhile wsChar) with
            | Except.error err => Except.error err
            | Except.ok (v, rest2) =>
              if lineEndOk rest2 then Except.ok (some (TLine.kv (String.mk keyCs) v))
              else Except.error PErr.bad
          else Except.error PErr.bad

/-- Declare the table at `path`, creating intermediate tables; declaring an
already-present final segment is an error (tomllib's duplicate-table rule;
its "supertable declared later" allowance never arises in these
documents). -/
def createPath : List (String × Toml) → List String → Except PErr (List (String × Toml))
  | _, [] => Except.error PErr.bad
  | t, [seg] =>
    match lookupA seg t with
    | none => Except.ok (t ++ [(seg, Toml.vtable [])])
    | some _ => Except.error PErr.bad
  | t, seg :: seg2 :: rest =>
    match lookupA seg t with
    | none =>
      match createPath [] (seg2 :: rest) with
      | Except.error e => Except.error e
      | Except.ok sub => Except.ok (t ++ [(seg, Toml.vtable sub)])
    | some (Toml.vtable sub) =>
      match createPath sub (seg2 :: rest) with
      | Except.error e => Except.error e
      | Except.ok sub2 => Except.ok (replaceA seg (Toml.vtable sub2) t)
    | some _ => Except.error PErr.bad

/-- Insert a key/value pair into the table at `path`; duplicate keys are an
error. -/
def insertAt : List (String × Toml) → List String → String → Toml → Except PErr (List (String × Toml))
  | t, [], k, v =>
    match lookupA k t with
    | none => Except.ok (t ++ [(k, v)])
    | some _ => Except.error PErr.bad
  | t, seg :: rest, k, v =>
    match lookupA seg t with
    | some (Toml.vtable sub) =>
      match insertAt sub rest k v with
      | Except.error e => Except.error e
      | Except.ok sub2 => Except.ok (replaceA seg (Toml.vtable sub2) t)
    | _ => Except.error PErr.bad

/-- Process the document lines left to right, tracking the current table
path (the top-level table before any header). -/
def runLines : List (String × Toml) → List String → List String → Except PErr (List (String × Toml))
  | cfg, _, [] => Except.ok cfg
  | cfg, path, l :: rest =>
    match parseLineC l.data with
    | Except.error e => Except.error e
    | Except.ok none => runLines cfg path rest
    | Except.ok (some (TLine.header p)) =>
      match createPath cfg p with
      | Except.error e => Except.error e
      | Except.ok cfg2 => runLines cfg2 p rest
    | Except.ok (some (TLine.kv k v)) =>
      match insertAt cfg path k v with
      | Except.error e => Except.error e
      | Except.ok cfg2 => runLines cfg2 path rest

/-- `tomllib.load` on the document text (restricted to the grammar fragment
above). -/
def parseConfig (doc : String) : Except PErr (List (String × Toml)) :=
  runLines [] [] (splitNl doc)

/-- `list_servers` (config_parser.py:46-50): the ids of the `servers` table
in document order (`config.get("servers", {})`). -/
def listIds (cfg : List (String × Toml)) : List String :=
  match lookupA ("servers") cfg with
  | some (Toml.vtable t) => t.map Prod.fst
  | _ => []

/-- Serialize, reload, list: the round-trip of claim C4. -/
def roundtripIds (servers : Registry) : Except PErr (List String) :=
  match parseConfig (writeTomlDoc servers) with
  | Except.error e => Except.error e
  | Except.ok cfg => Except.ok (listIds cfg)

/-! ## Operation ledger (`load_operations`, sync_tui.py:125-156)

The ledger is a JSON-lines file.  `load_operations` strips the content,
splits on newlines, slices the last `limit` lines (note Python's
`lines[-limit:]` is the *whole* list when `limit == 0`), walks the window in
reverse, skips empty lines, parses each remaining line with `json.loads`
(only `json.JSONDecodeError` is caught — a line holding valid JSON that is
not an object makes the subsequent `data.get` raise `AttributeError`, which
aborts the whole read), and builds a record per object with `.get`
defaults. -/

inductive Json where
  | jnull
  | jbool (b : Bool)
  | jint (n : Int)
  | jstr (s : String)
  | jarr (elems : List Json)
  | jobj (fields : List (String × Json))
deriving Repr

def jsonWs (c : Char) : Bool :=
  c = ' ' || c.toNat = 9 || c.toNat = 10 || c.toNat = 13

/-- Scan a JSON string body up to the closing quote.  Escapes: the
single-character ones (`\uXXXX` is outside the modelled fragment); raw
control characters are invalid, as in `json.loads`. -/
def scanJStr : List Char → Except Unit (List Char × List Char)
  | [] => Except.error ()
  | c :: rest =>
    if c = dqChar then Except.ok ([], rest)
    else if c = bsChar then
      match rest with
      | [] => Except.error ()
      | e :: rest2 =>
        let dec : Option Char :=
          if e = dqChar then some dqChar
          else if e = bsChar then some bsChar
          else if e = '/' then some '/'
          else if e = 'n' then some nlChar
          else if e = 't' then some tabChar
          else if e = 'r' then some (Char.ofNat 13)
          else if e = 'b' then some (Char.ofNat 8)
          else if e = 'f' then some (Char.ofNat 12)
          else none
        match dec with
        | none => Except.error ()
        | some ec =>
          match scanJStr rest2 with
          | Except.error err => Except.error err
          | Except.ok (s, r) => Except.ok (ec :: s, r)
    else if c.toNat < 32 then Except.error ()
    else
      match scanJStr rest with
      | Except.error err => Except.error err
      | Except.ok (s, r) => Except.ok (c :: s, r)

/-- Strip a literal prefix, or fail. -/
def dropLit : List Char → List Char → Option (List Char)
  | [], cs => some cs
  | _ :: _, [] => none
  | p :: ps, c :: cs => if p = c then dropLit ps cs else none

def braceO : Char := Char.ofNat 123

def braceC : Char := Char.ofNat 125

mutual

/-- Recursive-descent JSON value parser, fuel-indexed (callers pass the
input length plus one, which always suffices since every recursive call
consumes at least one character).  Numbers are modelled as decimal integers;
the ledger records evaluated here contain no floats. -/
def parseJVal : Nat → List Char → Except Unit (Json × List Char)
  | 0, _ => Except.error ()
  | fuel + 1, cs =>
    match cs.dropWhile jsonWs with
    | [] => Except.error ()
    | c :: rest =>
      if c = dqChar then
        match scanJStr rest with
        | Except.error e => Except.error e
        | Except.ok (s, r) => Except.ok (Json.jstr (String.mk s), r)
      else if c = braceO then parseJObj fuel true (rest.dropWhile jsonWs)
      else if c = '[' then parseJArr fuel true (rest.dropWhile jsonWs)
      else
        match dropLit (("null").data) (c :: rest) with
        | some r => Except.ok (Json.jnull, r)
        | none =>
          match dropLit (("true").data) (c :: rest) with
          | some r => Except.ok (Json.jbool true, r)
          | none =>
            match dropLit (("false").data) (c :: rest) with
            | some r => Except.ok (Json.jbool false, r)
            | none =>
              if c = '-' then
                match rest.takeWhile isDigitChar, rest.dropWhile isDigitChar with
                | [], _ => Except.error ()
                | ds, r => Except.ok (Json.jint (-(digitsToNat ds : Int)), r)
              else if isDigitChar c then
                Except.ok (Json.jint (digitsToNat ((c :: rest).takeWhile isDigitChar) : Int),
                           (c :: rest).dropWhile isDigitChar)
              else Except.error ()

/-- Parse the inside of an object after `{` (whitespace already skipped);
`first` is true before the first member. -/
def parseJObj : Nat → Bool → List Char → Except Unit (Json × List Char)
  | 0, _, _ => Except.error ()
  | fuel + 1, first, cs =>
    match cs with
    | [] => Except.error ()
    | c :: rest =>
      if c = braceC && first then Except.ok (Json.jobj [], rest)
      else
        if c = dqChar then
          match scanJStr rest with
          | Except.error e => Except.error e
          | Except.ok (k, r1) =>
            match r1.dropWhile jsonWs with
            | [] => Except.error ()
            | c2 :: r2 =>
              if c2 = ':' then
                match parseJVal fuel r2 with
                | Except.error e => Except.error e
                | Except.ok (v, r3) =>
                  match r3.dropWhile jsonWs with
                  | [] => Except.error ()
                  | c3 :: r4 =>
                    if c3 = braceC then Except.ok (Json.jobj [(String.mk k, v)], r4)
                    else if c3 = ',' then
                      match parseJObj fuel false (r4.dropWhile jsonWs) with
                      | Except.error e => Except.error e
                      | Except.ok (Json.jobj fs, r5) => Except.ok (Json.jobj ((String.mk k, v) :: fs), r5)
                      | Except.ok _ => Except.error ()
                    else Except.error ()
              else Except.error ()
        else Except.error ()

/-- Parse the inside of an array after `[` (whitespace already skipped). -/
def parseJArr : Nat → Bool → List Char → Except Unit (Json × List Char)
  | 0, _, _ => Except.error ()
  | fuel + 1, first, cs =>
    match cs with
    | [] => Except.error ()
    | c :: rest =>
      if c = ']' && first then Except.ok (Json.jarr [], rest)
      else
        match parseJVal fuel (c :: rest) with
        | Except.error e => Except.error e
        | Except.ok (v, r1) =>
          match r1.dropWhile jsonWs with
          | [] => Except.error ()
          | c2 :: r2 =>
            if c2 = ']' then Except.ok (Json.jarr [v], r2)
            else if c2 = ',' then
              match parseJArr fuel false (r2.dropWhile jsonWs) with
              | Except.error e => Except.error e
              | Except.ok (Json.jarr vs, r3) => Except.ok (Json.jarr (v :: vs), r3)
              | Except.ok _ => Except.error ()
            else Except.error ()

end

/-- `json.loads` on one line: parse a value and require only whitespace
after it. -/
def parseJson (cs : List Char) : Except Unit Json :=
  match parseJVal (cs.length + 1) cs with
  | Except.error e => Except.error e
  | Except.ok (v, r) =>
    if (r.dropWhile jsonWs).isEmpty then Except.ok v else Except.error ()

/-- `dict.get(k, d)` on an object built by `json.loads`: for duplicate keys
the later occurrence wins (later assignments overwrite). -/
def jGet (fields : List (String × Json)) (k : String) (d : Json) : Json :=
  match lookupA k fields.reverse with
  | some v => v
  | none => d

/-- The ledger record schema (`SyncOperation` dataclass).  The dataclass is
untyped at runtime — each field holds whatever `data.get` returned — so the
fields are modelled as raw JSON values. -/
structure SyncOperation where
  uuid : Json
  operation : Json
  server_id : Json
  source_path : Json
  dest_path : Json
  timestamp_start : Json
  timestamp_end : Json
  status : Json
  bytes_transferred : Json
  dry_run : Json
deriving Repr

def mkOperation (fields : List (String × Json)) : SyncOperation :=
  { uuid := jGet fields ("uuid") (Json.jstr ("")),
    operation := jGet fields ("operation") (Json.jstr ("")),
    server_id := jGet fields ("server_id") (Json.jstr ("")),
    source_path := jGet fields ("source_path") (Json.jstr ("")),
    dest_path := jGet fields ("dest_path") (Json.jstr ("")),
    timestamp_start := jGet fields ("timestamp_start") (Json.jstr ("")),
    timestamp_end := jGet fields ("timestamp_end") (Json.jstr ("")),
    status := jGet fields ("status") (Json.jstr ("")),
    bytes_transferred := jGet fields ("bytes_transferred") (Json.jint 0),
    dry_run := jGet fields ("dry_run") (Json.jbool false) }

/-- Python `lines[-limit:]`: the last `limit` elements — except that
`limit = 0` selects the whole list (`lst[-0:] == lst[0:]`). -/
def lastWindow {α : Type} (limit : Nat) (lines : List α) : List α :=
  if limit = 0 then lines else lines.drop (lines.length - limit)

inductive LoadErr where
  | attrError
deriving DecidableEq, Repr

/-- The per-line body of the `for line in reversed(lines)` loop. -/
def loadOpsLoop : List String → Except LoadErr (List SyncOperation)
  | [] => Except.ok []
  | l :: rest =>
    if l = "" then loadOpsLoop rest
    else
      match parseJson l.data with
      | Except.error _ => loadOpsLoop rest
      | Except.ok (Json.jobj fields) =>
        match loadOpsLoop rest with
        | Except.error e => Except.error e
        | Except.ok ops => Except.ok (mkOperation fields :: ops)
      | Except.ok _ => Except.error LoadErr.attrError

/-- `load_operations`: `none` models an absent log file. -/
def loadOperations (log : Option String) (limit : Nat) : Except LoadErr (List SyncOperation) :=
  match log with
  | none => Except.ok []
  | some content =>
    loadOpsLoop ((lastWindow limit (splitNl (pyStrip content))).reverse)

/-- One line viewed as an optional record, for stating what the loop
computes when no line aborts it. -/
def parseOpLine (l : String) : Option SyncOperation :=
  if l = "" then none
  else
    match parseJson l.data with
    | Except.ok (Json.jobj fields) => some (mkOperation fields)
    | _ => none

/-- A line is benign when it does not abort the read: empty, unparsable, or
a JSON object. -/
def lineBenign (l : String) : Bool :=
  l = "" ||
  (match parseJson l.data with
   | Except.ok (Json.jobj _) => true
   | Except.ok _ => false
   | Except.error _ => true)

/-! ## Remote listing cache (`_load_remote_files`, sync_tui.py:786-819)

An exact decimal number, modelling the value Python's `float()` returns on
the plain decimal literals found in cache files (for which the binary
rounding is observationally irrelevant here): `num / den`, unreduced. -/

structure PyFloat where
  num : Int
  den : Nat
deriving DecidableEq, Repr

/-- Fragment of Python `float(s)` for plain decimal literals
`[-]digits[.digits]`; anything else raises (`none`). -/
def parsePyFloat (cs : List Char) : Option PyFloat :=
  let core : List Char → Option PyFloat := fun ds =>
    match splitOnChar '.' ds with
    | [ipart] => (digitsVal ipart).map (fun n => PyFloat.mk (n : Int) 1)
    | [ipart, fpart] =>
      match digitsVal ipart, digitsVal fpart with
      | some i, some f =>
        some (PyFloat.mk ((i : Int) * ((10 : Int) ^ fpart.length) + (f : Int)) (10 ^ fpart.length))
      | _, _ => none
    | _ => none
  match cs with
  | '-' :: rest => (core rest).map (fun q => PyFloat.mk (-q.num) q.den)
  | _ => core cs

/-- The `FileEntry` dataclass (sync_tui.py:532-563): name, path, size,
modification time, location tag, and source. -/
structure FileEntry where
  name : String
  path : String
  size : Int
  modified : PyFloat
  location : String
  source : String
deriving DecidableEq, Repr

/-- One record line of the cache body, as consumed by the loop: `none` when
the line is skipped (the `CACHED` sentinel or fewer than two pipe-separated
fields).  The caller handles the `float()` failure case separately. -/
def cacheRecOf (sid host : String) (l : String) : Option FileEntry :=
  if l = "CACHED" then none
  else
    match splitOnChar '|' l.data with
    | p0 :: p1 :: restP =>
      let size : Int :=
        if !p0.isEmpty && p0.all isDigitChar then (digitsToNat p0 : Int) else 0
      let name := String.mk p1
      let modified : PyFloat :=
        match restP with
        | [] => PyFloat.mk 0 1
        | p2 :: _ => (parsePyFloat p2).getD (PyFloat.mk 0 1)
      some (FileEntry.mk name ("remote://" ++ sid ++ "/" ++ name) size modified
              ("remote:" ++ sid) host)
    | _ => none

/-- Does the line make `float(parts[2])` raise?  (Three or more fields with
an unparsable third field.) -/
def cacheLineRaises (l : String) : Bool :=
  if l = "CACHED" then false
  else
    match splitOnChar '|' l.data with
    | _ :: _ :: p2 :: _ => (parsePyFloat p2).isNone
    | _ => false

/-- The body loop of `_load_remote_files`: entries collected so far are kept
when a `float()` failure raises out of the loop (the flag records that the
exception path was taken). -/
def cacheLoop (sid host : String) : List String → List FileEntry × Bool
  | [] => ([], false)
  | l :: rest =>
    if cacheLineRaises l then ([], true)
    else
      match cacheRecOf sid host l with
      | none => cacheLoop sid host rest
      | some e =>
        match cacheLoop sid host rest with
        | (es, b) => (e :: es, b)

/-- The header check and body walk: the first line must carry the success
marker prefix `OK|`, otherwise no entries are produced. -/
def loadCacheFiles (sid host : String) : List String → List FileEntry
  | [] => []
  | l0 :: body =>
    if startsWithSeg (("OK|").data) l0.data then (cacheLoop sid host body).1 else []

/-- `_load_remote_files`: `none` models an absent cache file.  Returns the
entry list together with the advisory "no cached data" flag (the warning
notification shown when the list is empty — the `CacheMiss` signal). -/
def loadRemoteFiles (cache : Option String) (sid host : String) : List FileEntry × Bool :=
  match cache with
  | none => ([], true)
  | some content =>
    (loadCacheFiles sid host (splitNl (pyStrip content)),
     (loadCacheFiles sid host (splitNl (pyStrip content))).isEmpty)

/-! ## Search filter (`_load_location_files`, sync_tui.py:744-750)

`fnmatch.fnmatch(name.lower(), f"*{query.lower()}*")`: the query is wrapped
in `*` on both sides, making the filter a substring-style glob match.  The
matcher below covers `*`, `?` and literal characters (`[...]` classes are
outside the fragment any evaluated pattern uses). -/

def globMatch : List Char → List Char → Bool
  | [], s => s.isEmpty
  | '*' :: ps, [] => globMatch ps []
  | '*' :: ps, c :: s2 => globMatch ps (c :: s2) || globMatch ('*' :: ps) s2
  | '?' :: _, [] => false
  | '?' :: ps, _ :: s2 => globMatch ps s2
  | _ :: _, [] => false
  | p :: ps, c :: s2 => (p = c) && globMatch ps s2
termination_by p s => p.length + s.length

/-- The wrapped pattern `"*" + query.lower() + "*"`. -/
def starWrap (query : String) : List Char :=
  '*' :: ((pyLower query).data ++ ['*'])

/-- The `search(entries, pattern)` operation: the per-entry filter applied
by `_load_location_files` when a search query is set (empty query: no
filtering). -/
def searchEntries (entries : List FileEntry) (query : String) : List FileEntry :=
  if query = "" then entries
  else entries.filter (fun e => globMatch (starWrap query) (pyLower e.name).data)

/-! ## Size formatting (`FileEntry.size_str`, sync_tui.py:542-549)

The running value `size` starts as an integer and is divided by 1024 as a
float; it is modelled exactly as the rational `num / den` (float division by
1024 is exact up to 2^53, far beyond any fixture here).  `f"{size:.1f}"`
rounds the exact value to one decimal, ties to even, which `fmt1`
implements with integer arithmetic. -/

def fmt1 (num den : Nat) : String :=
  let t := num * 10
  let fl := t / den
  let r := t % den
  let n10 := if 2 * r < den then fl else if den < 2 * r then fl + 1
             else if fl % 2 = 0 then fl else fl + 1
  natDecimalStr (n10 / 10) ++ "." ++ natDecimalStr (n10 % 10)

def sizeStrAux : List String → Nat → Nat → String
  | [], num, den => fmt1 num den ++ " TB"
  | u :: us, num, den =>
    if num < 1024 * den then fmt1 num den ++ " " ++ u
    else sizeStrAux us num (den * 1024)

/-- `FileEntry.size_str`: binary units with `f"{size:.1f} {unit}"`. -/
def sizeStr (size : Nat) : String :=
  sizeStrAux ["B", "KB", "MB", "GB"] size 1

/-! ## File catalog enumeration (`FileBrowser._populate_tree` and
`_load_location_files`)

A directory tree is modelled as a value; `FSNode.dir`'s children appear in
arbitrary on-disk order and are sorted by the code where noted. -/

inductive FSNode where
  | file (name : String) (size : Nat) (mtime : Int)
  | dir (name : String) (children : List FSNode)
deriving Repr

def nodeName : FSNode → String
  | FSNode.file n _ _ => n
  | FSNode.dir n _ => n

def nodeLe (a b : FSNode) : Bool :=
  charsLe (nodeName a).data (nodeName b).data

def startsDot (s : String) : Bool :=
  match s.data with
  | c :: _ => c = '.'
  | [] => false

/-- `FileBrowser._populate_tree` (sync_tui.py:214-232): iterates
`sorted(path.iterdir())` once, skips entries whose names start with a dot,
and adds one node per remaining entry (directories receive a lazy
placeholder and are *not* recursed into; the `depth > 3` guard is therefore
never exceeded).  The label markup (icon, human size suffix) is
presentation; the enumeration — which nodes appear, in which order — is what
is modelled. -/
def populateTree (children : List FSNode) : List FSNode :=
  (sortLe nodeLe children).filter (fun n => !startsDot (nodeName n))

mutual

/-- `path.rglob("*")` on one node: the node itself and, for a directory, all
descendants; pathlib's wildcard is `fnmatch`-based and does *not* treat a
leading dot specially, so hidden entries are included at every level. -/
def rglobNode (base : String) : FSNode → List (String × FSNode)
  | FSNode.file n s t => [(base ++ n, FSNode.file n s t)]
  | FSNode.dir n cs => (base ++ n, FSNode.dir n cs) :: rglobList (base ++ n ++ "/") cs

def rglobList (base : String) : List FSNode → List (String × FSNode)
  | [] => []
  | c :: cs => rglobNode base c ++ rglobList base cs

end

def pairPathLe (a b : String × FSNode) : Bool :=
  charsLe a.1.data b.1.data

/-- `_load_location_files` (sync_tui.py:735-765): `sorted(path.rglob("*"))`
(sorted by path, hidden names *not* filtered), keep files, apply the search
filter when a query is set, and build a `FileEntry` per file.  `none`
models a missing root directory (the early-return branch). -/
def loadLocationFiles (location : String) (root : Option (List FSNode))
    (src query : String) : List FileEntry :=
  match root with
  | none => []
  | some children =>
    (sortLe pairPathLe (rglobList ("") children)).filterMap (fun pr =>
      match pr.2 with
      | FSNode.file n sz mt =>
        if query = "" || globMatch (starWrap query) (pyLower n).data then
          some (FileEntry.mk n pr.1 (sz : Int) (PyFloat.mk mt 1) location src)
        else none
      | FSNode.dir _ _ => none)

/-! ## Cleanliness predicates and concrete fixtures used by the theorems -/

/-- A string usable verbatim as a TOML bare key (nonempty, `[A-Za-z0-9_-]`). -/
def bareKeyB (s : String) : Bool :=
  !s.data.isEmpty && s.data.all bareChar

/-- A field value whose serialized form reparses: string contents must be
free of quotes, backslashes and control characters. -/
def cleanVal : PyVal → Bool
  | PyVal.pstr s => s.data.all okStrChar
  | _ => true

/-- The server table used by the C3 witness. -/
def c3Server : Server :=
  [("enabled", PyVal.pbool true), ("user", PyVal.pstr ("alice"))]

/-- A registry whose only string value contains a double quote — `write_toml`
emits it unescaped, producing a document `tomllib` rejects. -/
def c4CounterRegistry : Registry :=
  [("abc", [("name", PyVal.pstr ("x" ++ String.mk [dqChar] ++ "y"))])]

/-- A registry with two well-formed profiles, for the C4 witness. -/
def c4ExampleRegistry : Registry :=
  [("alpha", [("name", PyVal.pstr ("alpha")), ("port", PyVal.pint 22),
              ("enabled", PyVal.pbool false)]),
   ("beta-1", [])]

/-- Ledger fixture: three well-formed JSON object lines and one malformed
trailing line. -/
def c5ExampleLog : String :=
  "\x7b\"uuid\": \"a1\"\x7d\n\x7b\"uuid\": \"b2\"\x7d\n\x7b\"uuid\": \"c3\"\x7d\nnot json"

/-- A single well-formed ledger line. -/
def c5ObjLine : String := "\x7b\"uuid\": \"a1\"\x7d"

/-- Cache fixture: success header, two valid records, one malformed record
(a single field). -/
def c6ExampleCache : String := "OK|1700\n100|a.txt|111\n200|b.txt|222\njunk"

/-- A file whose name contains `.pdf` without ending in it. -/
def c7Entry : FileEntry :=
  FileEntry.mk ("a.pdf.bak") ("outbox/a.pdf.bak") 1 (PyFloat.mk 0 1) ("outbox") ("")

/-- A directory with one hidden and one visible file. -/
def c9Children : List FSNode :=
  [FSNode.file (".secret") 5 0, FSNode.file ("pub.txt") 3 0]

/-- A glob pattern character with no special meaning. -/
def plainChar (c : Char) : Bool :=
  !(c = '*') && !(c = '?')

/-! # Theorems

General-purpose lemmas first, then one theorem per claim (with its witness
or counterexample). -/

theorem stringDataExt {a b : String} (h : a.data = b.data) : a = b := by
  cases a
  cases b
  exact congrArg String.mk h

theorem lookupA_replaceA {α : Type} (k : String) (v : α) (l : List (String × α)) (s : α)
    (h : lookupA k l = some s) : lookupA k (replaceA k v l) = some v := by
  induction l with
  | nil => simp [lookupA] at h
  | cons p rest ih =>
    by_cases hp : p.1 = k
    · simp [replaceA, hp, lookupA]
    · rw [lookupA, if_neg hp] at h
      rw [replaceA, if_neg hp, lookupA, if_neg hp]
      exact ih h

theorem lookupA_updateField (k : String) (v : PyVal) (s : Server) :
    lookupA k (updateField k v s) = some v := by
  induction s with
  | nil => simp [updateField, lookupA]
  | cons p rest ih =>
    by_cases hp : p.1 = k
    · simp [updateField, hp, lookupA]
    · simp [updateField, hp, lookupA, ih]

/-- C1 (code_bug evidence): the claim's three clauses hold concretely for
strictly valid inputs — `add("AB")` fails with `InvalidId`, a duplicate add
fails with `AlreadyExists`, a valid fresh add installs the default profile —
but the final clause ("an id violating the format rule fails with
`InvalidId`") is broken by the code: `"aaa\n"` violates the documented rule
(`specIdFormatRule`), yet CPython's `re.match` with an unanchored-at-`$`
pattern accepts it (a `$` matches before a trailing newline; the code's own
error message says "Must be 3-32 chars, lowercase alphanumeric with
dashes"), so `add_server` installs the profile under the newline id. -/
theorem c1_add_accepts_newline_id :
    addServer [] ("AB") = Except.error AddErr.invalidId ∧
    addServer [(("aaa"), defaultServer ("aaa"))] ("aaa") = Except.error AddErr.alreadyExists ∧
    addServer [] ("aaa") = Except.ok [(("aaa"), defaultServer ("aaa"))] ∧
    specIdFormatRule ("aaa\n") = false ∧
    addServer [] ("aaa\n") = Except.ok [(("aaa\n"), defaultServer ("aaa\n"))] :=
  ⟨rfl, rfl, rfl, rfl, rfl⟩

/-- C2: `setField` fails with `NotFound` on an absent server id (leaving the
registry unchanged — no server is created), and on a present id stores the
coerced value so that a subsequent `getField` returns it: digit strings
become integers (`"2222"` ↦ `2222`), `true`/`false` case-insensitively
become booleans, and any other string is stored unchanged. -/
theorem c2_set_field_coercion (servers : Registry) (id field value : String) :
    (lookupA id servers = none → setField servers id field value = Except.error SetErr.notFound) ∧
    (∀ s, lookupA id servers = some s →
      setField servers id field value =
        Except.ok (replaceA id (updateField field (coerceValue value) s) servers) ∧
      getField (replaceA id (updateField field (coerceValue value) s) servers) id field =
        Except.ok (coerceValue value)) ∧
    coerceValue ("2222") = PyVal.pint 2222 ∧
    coerceValue ("true") = PyVal.pbool true ∧
    coerceValue ("TRUE") = PyVal.pbool true ∧
    coerceValue ("FaLsE") = PyVal.pbool false ∧
    coerceValue ("x") = PyVal.pstr ("x") ∧
    (pyLower value ≠ "true" → pyLower value ≠ "false" →
      (!value.data.isEmpty && value.data.all isDigitChar) = false →
      coerceValue value = PyVal.pstr value) := by
  refine ⟨?_, ?_, rfl, rfl, rfl, rfl, rfl, ?_⟩
  · intro h
    simp [setField, h]
  · intro s hs
    refine ⟨by simp [setField, hs], ?_⟩
    have h1 := lookupA_replaceA id (updateField field (coerceValue value) s) servers s hs
    simp [getField, h1, lookupA_updateField]
  · intro h1 h2 h3
    simp [coerceValue, h1, h2, h3]

/-- C2 witness: on a one-server registry, `setField "port" "2222"` stores
the integer 2222 and `getField` reads it back. -/
theorem c2_set_field_coercion_witness :
    setField [(("srv"), defaultServer ("srv"))] ("srv") ("port") ("2222") =
      Except.ok (replaceA ("srv")
        (updateField ("port") (coerceValue ("2222")) (defaultServer ("srv")))
        [(("srv"), defaultServer ("srv"))]) ∧
    getField (replaceA ("srv")
        (updateField ("port") (coerceValue ("2222")) (defaultServer ("srv")))
        [(("srv"), defaultServer ("srv"))]) ("srv") ("port") = Except.ok (PyVal.pint 2222) := by
  have h := (c2_set_field_coercion [(("srv"), defaultServer ("srv"))] ("srv") ("port") ("2222")).2.1
    (defaultServer ("srv")) rfl
  exact ⟨h.1, h.2.trans (by rfl)⟩

/-- C10: with the server present, `getField` fails with the field-not-found
error exactly when the field key is absent from the server's table (values
parsed from TOML are never null, so `server.get(field) is None` is exactly
key absence); a present field is returned even when its value is falsy,
e.g. the empty string. -/
theorem c10_get_field_absent_vs_falsy (servers : Registry) (id field : String) :
    (lookupA id servers = none →
      getField servers id field = Except.error FieldErr.serverNotFound) ∧
    (∀ s, lookupA id servers = some s →
      ((getField servers id field = Except.error FieldErr.fieldNotFound ↔
        lookupA field s = none) ∧
       (∀ v, lookupA field s = some v → getField servers id field = Except.ok v))) := by
  constructor
  · intro h
    simp [getField, h]
  · intro s hs
    constructor
    · simp only [getField, hs]
      cases hf : lookupA field s <;> simp [hf]
    · intro v hv
      simp [getField, hs, hv]

/-- C10 witness: a field stored as the empty string is returned as a valid
empty value, not an error. -/
theorem c10_get_field_absent_vs_falsy_witness :
    getField [(("srv1"), [("host", PyVal.pstr (""))])] ("srv1") ("host") =
      Except.ok (PyVal.pstr ("")) ∧
    getField [(("srv1"), [("host", PyVal.pstr (""))])] ("srv1") ("user") =
      Except.error FieldErr.fieldNotFound := by
  constructor
  · exact ((c10_get_field_absent_vs_falsy [(("srv1"), [("host", PyVal.pstr (""))])]
      ("srv1") ("host")).2 [("host", PyVal.pstr (""))] rfl).2 (PyVal.pstr ("")) rfl
  · exact ((c10_get_field_absent_vs_falsy [(("srv1"), [("host", PyVal.pstr (""))])]
      ("srv1") ("user")).2 [("host", PyVal.pstr (""))] rfl).1.mpr rfl

/-- C3: `toShellEnv` fails with `NotFound` on an absent id and with
`Disabled` when the enabled flag is false; on an enabled server it emits
exactly the seven lines of `bashLines` — one per attribute, in the fixed
order name, host, port, user, identity_file, remote_base, s3_backup — with
each embedded single quote escaped as quote-backslash-quote-quote; with
`user = "alice"` and empty `remote_base` the derived value is
`/home/alice/.sync-shuttle`, and the concrete enabled example shows the full
output including `server_remote_base='/home/alice/.sync-shuttle'`. -/
theorem c3_to_shell_env (servers : Registry) (id : String) :
    (lookupA id servers = none → getServerBash servers id = Except.error BashErr.notFound) ∧
    (∀ server, lookupA id servers = some server →
      ((pyTruthy ((lookupA ("enabled") server).getD (PyVal.pbool false)) = false →
        getServerBash servers id = Except.error BashErr.disabled) ∧
       (pyTruthy ((lookupA ("enabled") server).getD (PyVal.pbool false)) = true →
        getServerBash servers id = Except.ok (bashLines id server) ∧
        (bashLines id server).length = 7))) ∧
    (∀ server, lookupA ("user") server = some (PyVal.pstr ("alice")) →
      lookupA ("remote_base") server = some (PyVal.pstr ("")) →
      bashRemoteBase server = "/home/alice/.sync-shuttle") ∧
    escapeQ ("a" ++ sqStr ++ "b") =
      "a" ++ sqStr ++ String.mk [bsChar] ++ sqStr ++ sqStr ++ "b" ∧
    getServerBash [(("s1"), c3Server)] ("s1") =
      Except.ok
        ["server_name=" ++ sqStr ++ "s1" ++ sqStr,
         "server_host=" ++ sqStr ++ sqStr,
         "server_port=" ++ sqStr ++ "22" ++ sqStr,
         "server_user=" ++ sqStr ++ "alice" ++ sqStr,
         "server_identity_file=" ++ sqStr ++ sqStr,
         "server_remote_base=" ++ sqStr ++ "/home/alice/.sync-shuttle" ++ sqStr,
         "server_s3_backup=" ++ sqStr ++ "false" ++ sqStr] := by
  refine ⟨?_, ?_, ?_, by rfl, by rfl⟩
  · intro h
    simp [getServerBash, h]
  · intro server hs
    constructor
    · intro ht
      simp [getServerBash, hs, ht]
    · intro ht
      exact ⟨by simp [getServerBash, hs, ht], by simp [bashLines]⟩
  · intro server hu hrb
    simp [bashRemoteBase, bashUser, hu, hrb, pyStr, pyTruthy]

/-- C3 witness: the enabled/disabled and output clauses instantiated on the
concrete `c3Server`. -/
theorem c3_to_shell_env_witness :
    getServerBash [(("s1"), c3Server)] ("s1") = Except.ok (bashLines ("s1") c3Server) ∧
    (bashLines ("s1") c3Server).length = 7 ∧
    getServerBash [(("s2"), [("enabled", PyVal.pbool false)])] ("s2") =
      Except.error BashErr.disabled := by
  have h := ((c3_to_shell_env [(("s1"), c3Server)] ("s1")).2.1 c3Server rfl).2 rfl
  have h2 := ((c3_to_shell_env [(("s2"), [("enabled", PyVal.pbool false)])] ("s2")).2.1
    [("enabled", PyVal.pbool false)] rfl).1 rfl
  exact ⟨h.1, h.2, h2⟩

/-- C8 counterexample: the formatter always prints one decimal place —
`f"{size:.1f}"` — so 512 renders as `"512.0 B"` (not `"512 B"` as claimed)
and 2048 renders as `"2.0 KB"` (not `"2 KB"`). -/
theorem c8_size_counterexample :
    sizeStr 512 = "512.0 B" ∧ sizeStr 512 ≠ "512 B" ∧
    sizeStr 2048 = "2.0 KB" ∧ sizeStr 2048 ≠ "2 KB" := by
  refine ⟨rfl, ?_, rfl, ?_⟩ <;> decide

/-- C8 amended: sizes render in binary-prefixed units B/KB/MB/GB/TB,
dividing by 1024 at each step, always with exactly one decimal place (also
for whole numbers of bytes): every size below 1024 renders as
`"<n>.0 B"`, 2048 renders as `"2.0 KB"`, 1536000 as `"1.5 MB"`, and the
boundary 1024 as `"1.0 KB"`. -/
theorem c8_size_amended (n : Nat) (h : n < 1024) :
    sizeStr n = natDecimalStr n ++ ".0 B" ∧
    sizeStr 2048 = "2.0 KB" ∧
    sizeStr 1536000 = "1.5 MB" ∧
    sizeStr 1024 = "1.0 KB" := by
  refine ⟨?_, rfl, rfl, rfl⟩
  have h1 : n < 1024 * 1 := by omega
  rw [sizeStr, sizeStrAux, if_pos h1]
  have e2 : n * 10 / 10 = n := by omega
  have e3 : n * 10 % 10 = 0 := by omega
  apply stringDataExt
  simp [fmt1, Nat.mod_one, e2, e3, String.data_append, natDecimalStr, natDecimalAux]

/-- C8 amended witness: the universal clause applied at 512. -/
theorem c8_size_amended_witness :
    sizeStr 512 = natDecimalStr 512 ++ ".0 B" :=
  (c8_size_amended 512 (by decide)).1

theorem cacheRecOf_fields (sid host : String) (l : String) (e : FileEntry)
    (h : cacheRecOf sid host l = some e) :
    e.location = "remote:" ++ sid ∧ e.source = host := by
  rw [cacheRecOf] at h
  by_cases hc : l = "CACHED"
  · simp [hc] at h
  · rw [if_neg hc] at h
    cases hp : splitOnChar '|' l.data with
    | nil => rw [hp] at h; simp at h
    | cons p0 ps =>
      cases ps with
      | nil => rw [hp] at h; simp at h
      | cons p1 restP =>
        rw [hp] at h
        simp only [Option.some.injEq] at h
        subst h
        exact ⟨rfl, rfl⟩

theorem cacheLoop_mem (sid host : String) (body : List String) (e : FileEntry)
    (h : e ∈ (cacheLoop sid host body).1) :
    e.location = "remote:" ++ sid ∧ e.source = host := by
  induction body with
  | nil => simp [cacheLoop] at h
  | cons l rest ih =>
    rw [cacheLoop] at h
    by_cases hr : cacheLineRaises l
    · simp [hr] at h
    · rw [if_neg hr] at h
      cases hrec : cacheRecOf sid host l with
      | none => rw [hrec] at h; exact ih h
      | some e2 =>
        rw [hrec] at h
        simp only [List.mem_cons] at h
        cases h with
        | inl he => exact he ▸ cacheRecOf_fields sid host l e2 hrec
        | inr he => exact ih he

theorem cacheLoop_filterMap (sid host : String) (body : List String)
    (h : body.all (fun l => !cacheLineRaises l) = true) :
    cacheLoop sid host body = (body.filterMap (cacheRecOf sid host), false) := by
  induction body with
  | nil => simp [cacheLoop]
  | cons l rest ih =>
    simp only [List.all_cons, Bool.and_eq_true, Bool.not_eq_true'] at h
    rw [cacheLoop, if_neg (by simp [h.1]), List.filterMap_cons]
    have ih2 := ih h.2
    cases hrec : cacheRecOf sid host l with
    | none => simpa [hrec] using ih2
    | some e2 => simp [hrec, ih2]

/-- C6: the remote-cache reader degrades to `CacheMiss` (empty entry list
plus the advisory flag) on a missing cache file; every produced entry
carries `location = "remote:" + serverId` and `source` equal to the caller's
host; when no body line makes `float()` raise, the body loop is exactly a
per-line `filterMap` (the `CACHED` sentinel and lines with fewer than two
pipe-separated fields are skipped, `size` defaults to 0 on a non-digit
field, `modified_time` defaults to 0 when absent); and on the concrete
fixture — success header, two valid records, one malformed record — exactly
the two valid entries are returned. -/
theorem c6_remote_cache (sid host : String) :
    loadRemoteFiles none sid host = ([], true) ∧
    (∀ cache e, e ∈ (loadRemoteFiles cache sid host).1 →
      e.location = "remote:" ++ sid ∧ e.source = host) ∧
    (∀ body : List String, body.all (fun l => !cacheLineRaises l) = true →
      cacheLoop sid host body = (body.filterMap (cacheRecOf sid host), false)) ∧
    loadRemoteFiles (some c6ExampleCache) sid host =
      ([FileEntry.mk ("a.txt") ("remote://" ++ sid ++ "/" ++ "a.txt") 100
          (PyFloat.mk 111 1) ("remote:" ++ sid) host,
        FileEntry.mk ("b.txt") ("remote://" ++ sid ++ "/" ++ "b.txt") 200
          (PyFloat.mk 222 1) ("remote:" ++ sid) host], false) := by
  refine ⟨rfl, ?_, cacheLoop_filterMap sid host, rfl⟩
  intro cache e he
  cases cache with
  | none => simp [loadRemoteFiles] at he
  | some content =>
    rw [loadRemoteFiles] at he
    generalize hl : splitNl (pyStrip content) = lines at he
    cases lines with
    | nil => rw [loadCacheFiles] at he; simp at he
    | cons l0 body =>
      rw [loadCacheFiles] at he
      by_cases hok : startsWithSeg (("OK|").data) l0.data = true
      · rw [if_pos hok] at he
        exact cacheLoop_mem sid host body e he
      · rw [if_neg hok] at he
        simp at he

/-- C6 witness: the membership and filterMap clauses instantiated on the
concrete fixture. -/
theorem c6_remote_cache_witness :
    (FileEntry.mk ("a.txt") ("remote://srv1/a.txt") 100 (PyFloat.mk 111 1)
        ("remote:srv1") ("h1")).location = "remote:" ++ "srv1" ∧
    cacheLoop ("srv1") ("h1") [("100|a.txt|111"), ("junk")] =
      ([("100|a.txt|111"), ("junk")].filterMap (cacheRecOf ("srv1") ("h1")), false) := by
  constructor
  · exact ((c6_remote_cache ("srv1") ("h1")).2.1 (some c6ExampleCache)
      (FileEntry.mk ("a.txt") ("remote://srv1/a.txt") 100 (PyFloat.mk 111 1)
        ("remote:srv1") ("h1")) (by decide)).1
  · exact (c6_remote_cache ("srv1") ("h1")).2.2.1 [("100|a.txt|111"), ("junk")] (by decide)

theorem loadOpsLoop_benign (ls : List String) (h : ls.all lineBenign = true) :
    loadOpsLoop ls = Except.ok (ls.filterMap parseOpLine) := by
  induction ls with
  | nil => simp [loadOpsLoop]
  | cons l rest ih =>
    simp only [List.all_cons, Bool.and_eq_true] at h
    rw [loadOpsLoop, List.filterMap_cons]
    by_cases hl : l = ""
    · simp [hl, parseOpLine, ih h.2]
    · rw [if_neg hl]
      cases hj : parseJson l.data with
      | error e => simp [hj, parseOpLine, hl, ih h.2]
      | ok v =>
        cases v with
        | jobj fields => simp [hj, parseOpLine, hl, ih h.2]
        | jnull => exfalso; have h1 := h.1; simp [lineBenign, hl, hj] at h1
        | jbool b => exfalso; have h1 := h.1; simp [lineBenign, hl, hj] at h1
        | jint n => exfalso; have h1 := h.1; simp [lineBenign, hl, hj] at h1
        | jstr s => exfalso; have h1 := h.1; simp [lineBenign, hl, hj] at h1
        | jarr xs => exfalso; have h1 := h.1; simp [lineBenign, hl, hj] at h1

theorem loadOpsLoop_length (ls : List String) (ops : List SyncOperation)
    (h : loadOpsLoop ls = Except.ok ops) : ops.length ≤ ls.length := by
  induction ls generalizing ops with
  | nil =>
    rw [loadOpsLoop] at h
    simp only [Except.ok.injEq] at h
    subst h
    simp
  | cons l rest ih =>
    rw [loadOpsLoop] at h
    by_cases hl : l = ""
    · rw [if_pos hl] at h
      exact le_trans (ih ops h) (by simp)
    · rw [if_neg hl] at h
      cases hj : parseJson l.data with
      | error e =>
        rw [hj] at h
        exact le_trans (ih ops h) (by simp)
      | ok v =>
        rw [hj] at h
        cases v with
        | jobj fields =>
          cases hrest : loadOpsLoop rest with
          | error e => rw [hrest] at h; simp at h
          | ok ops2 =>
            rw [hrest] at h
            simp only [Except.ok.injEq] at h
            subst h
            simpa using ih ops2 hrest
        | jnull => simp at h
        | jbool b => simp at h
        | jint n => simp at h
        | jstr s => simp at h
        | jarr xs => simp at h

theorem lastWindow_length {α : Type} (limit : Nat) (h : 1 ≤ limit) (lines : List α) :
    (lastWindow limit lines).length ≤ limit := by
  rw [lastWindow, if_neg (by omega)]
  simp only [List.length_drop]
  omega

/-- C5 counterexample: two universal clauses of the claim fail on the code.
With `limit = 0`, `lines[-limit:]` is the whole list, so `recent(0)` on a
one-line log returns one record instead of at most zero; and a line that is
valid JSON but not an object (here `[1, 2]`) is not skipped — only
`json.JSONDecodeError` is caught, so the subsequent `data.get` raises
`AttributeError` and aborts the whole read. -/
theorem c5_recent_counterexample :
    loadOperations (some c5ObjLine) 0 =
      Except.ok [mkOperation [("uuid", Json.jstr ("a1"))]] ∧
    (lastWindow 0 (splitNl (pyStrip c5ObjLine))).length = 1 ∧
    loadOperations (some ("[1, 2]")) 5 = Except.error LoadErr.attrError :=
  ⟨rfl, rfl, rfl⟩

/-- C5 amended: for every positive limit, `recent(limit)` takes at most the
last `limit` physical lines of the stripped log, returns them most-recent
first (the reversed window, each line parsed independently), and silently
skips lines that fail to parse *as JSON*; a line parsing to a non-object
JSON value aborts the read, and `limit = 0` disables the window bound.  An
absent log yields the empty sequence; the result never exceeds `limit`
records; and on a log of three well-formed lines and one malformed trailing
line, `recent(5)` returns exactly the three records, most recent first. -/
theorem c5_recent_amended (content : String) (limit : Nat) (h : 1 ≤ limit) :
    loadOperations none limit = Except.ok [] ∧
    (lastWindow limit (splitNl (pyStrip content))).length ≤ limit ∧
    ((lastWindow limit (splitNl (pyStrip content))).all lineBenign = true →
      loadOperations (some content) limit =
        Except.ok ((lastWindow limit (splitNl (pyStrip content))).reverse.filterMap parseOpLine)) ∧
    (∀ ops, loadOperations (some content) limit = Except.ok ops → ops.length ≤ limit) ∧
    (∃ ops, loadOperations (some c5ExampleLog) 5 = Except.ok ops ∧
      ops.map SyncOperation.uuid = [Json.jstr ("c3"), Json.jstr ("b2"), Json.jstr ("a1")] ∧
      ops.length = 3) := by
  refine ⟨rfl, lastWindow_length limit h _, ?_, ?_, ⟨_, rfl, rfl, rfl⟩⟩
  · intro hb
    rw [loadOperations]
    exact loadOpsLoop_benign _ (by simpa using hb)
  · intro ops hops
    rw [loadOperations] at hops
    have h1 := loadOpsLoop_length _ ops hops
    rw [List.length_reverse] at h1
    exact le_trans h1 (lastWindow_length limit h _)

/-- C5 amended witness: the windowed-filterMap clause instantiated on the
concrete fixture log. -/
theorem c5_recent_amended_witness :
    loadOperations (some c5ExampleLog) 5 =
      Except.ok ((lastWindow 5 (splitNl (pyStrip c5ExampleLog))).reverse.filterMap parseOpLine) :=
  (c5_recent_amended c5ExampleLog 5 (by omega)).2.2.1 (by decide)

theorem boolEqOfIff {a b : Bool} (h : a = true ↔ b = true) : a = b := by
  cases a <;> cases b <;> simp_all

theorem startsWithSeg_iff (seg : List Char) :
    ∀ cs, startsWithSeg seg cs = true ↔ ∃ b, cs = seg ++ b := by
  induction seg with
  | nil => intro cs; simp [startsWithSeg]
  | cons p ps ih =>
    intro cs
    cases cs with
    | nil => simp [startsWithSeg]
    | cons c cs2 =>
      simp only [startsWithSeg, Bool.and_eq_true, decide_eq_true_eq, List.cons_append,
        List.cons.injEq, ih]
      constructor
      · rintro ⟨rfl, b, rfl⟩
        exact ⟨b, rfl, rfl⟩
      · rintro ⟨b, rfl, rfl⟩
        exact ⟨rfl, b, rfl⟩

theorem containsSeg_iff (seg : List Char) :
    ∀ cs, containsSeg seg cs = true ↔ ∃ a b, cs = a ++ seg ++ b := by
  intro cs
  induction cs with
  | nil =>
    rw [containsSeg]
    constructor
    · intro hh
      exact ⟨[], [], by simp [List.isEmpty_iff.mp hh]⟩
    · rintro ⟨a, b, hab⟩
      have : a = [] ∧ seg = [] ∧ b = [] := by
        simpa [List.append_eq_nil] using hab.symm
      simp [this.2.1]
  | cons c rest ih =>
    rw [containsSeg]
    simp only [Bool.or_eq_true, startsWithSeg_iff, ih]
    constructor
    · rintro (⟨b, hb⟩ | ⟨a, b, hb⟩)
      · exact ⟨[], b, by simpa using hb⟩
      · exact ⟨c :: a, b, by simp [hb]⟩
    · rintro ⟨a, b, hab⟩
      cases a with
      | nil => exact Or.inl ⟨b, by simpa using hab⟩
      | cons a0 a2 =>
        right
        simp only [List.cons_append, List.cons.injEq] at hab
        exact ⟨a2, b, hab.2⟩

theorem glob_all_star (s : List Char) : globMatch ['*'] s = true := by
  induction s with
  | nil => simp [globMatch]
  | cons c s2 ih => simp [globMatch, ih]

theorem glob_star_iff (ps : List Char) :
    ∀ s, globMatch ('*' :: ps) s = true ↔ ∃ a b, s = a ++ b ∧ globMatch ps b = true := by
  intro s
  induction s with
  | nil =>
    simp only [globMatch]
    constructor
    · intro hh
      exact ⟨[], [], rfl, hh⟩
    · rintro ⟨a, b, hab, hb⟩
      obtain ⟨rfl, rfl⟩ := List.append_eq_nil.mp hab.symm
      exact hb
  | cons c s2 ih =>
    simp only [globMatch, Bool.or_eq_true, ih]
    constructor
    · rintro (h1 | ⟨a, b, rfl, hb⟩)
      · exact ⟨[], c :: s2, rfl, h1⟩
      · exact ⟨c :: a, b, rfl, hb⟩
    · rintro ⟨a, b, hab, hb⟩
      cases a with
      | nil =>
        have hb2 : b = c :: s2 := by simpa using hab.symm
        exact Or.inl (hb2 ▸ hb)
      | cons a0 a2 =>
        simp only [List.cons_append, List.cons.injEq] at hab
        exact Or.inr ⟨a2, b, hab.2, hb⟩

theorem glob_lit_star (seg : List Char) (h : seg.all plainChar = true) :
    ∀ s, globMatch (seg ++ ['*']) s = true ↔ ∃ b, s = seg ++ b := by
  induction seg with
  | nil =>
    intro s
    simpa using glob_all_star s
  | cons c seg2 ih =>
    intro s
    simp only [List.all_cons, Bool.and_eq_true] at h
    have hc1 : ¬(c = '*') := by
      have := h.1
      simp [plainChar] at this
      exact this.1
    have hc2 : ¬(c = '?') := by
      have := h.1
      simp [plainChar] at this
      exact this.2
    cases s with
    | nil =>
      rw [List.cons_append]
      constructor
      · intro hh
        exfalso
        rw [globMatch.eq_def] at hh
        simp [hc1, hc2] at hh
      · rintro ⟨b, hb⟩
        exact absurd hb.symm (by simp)
    | cons d s2 =>
      rw [List.cons_append]
      constructor
      · intro hh
        rw [globMatch.eq_def] at hh
        simp only [hc1, hc2] at hh
        have hdc : c = d ∧ globMatch (seg2 ++ ['*']) s2 = true := by
          by_cases hcd : c = d
          · subst hcd
            simpa [hc1, hc2] using hh
          · exfalso
            simp [hc1, hc2, hcd] at hh
        obtain ⟨rfl, h2⟩ := hdc
        obtain ⟨b, rfl⟩ := (ih h.2 s2).mp h2
        exact ⟨b, rfl⟩
      · rintro ⟨b, hb⟩
        simp only [List.cons_append, List.cons.injEq] at hb
        obtain ⟨rfl, rfl⟩ := hb
        rw [globMatch.eq_def]
        simp only [hc1, hc2]
        simpa [hc1, hc2] using (ih h.2 (seg2 ++ b)).mpr ⟨b, rfl⟩

theorem glob_contains (q : List Char) (hq : q.all plainChar = true) (s : List Char) :
    globMatch ('*' :: ('*' :: (q ++ ['*']))) s = true ↔ containsSeg q s = true := by
  rw [glob_star_iff]
  constructor
  · rintro ⟨a, b, rfl, hb⟩
    rw [glob_star_iff] at hb
    obtain ⟨a2, b2, rfl, hb2⟩ := hb
    obtain ⟨b3, rfl⟩ := (glob_lit_star q hq b2).mp hb2
    rw [containsSeg_iff]
    exact ⟨a ++ a2, b3, by simp⟩
  · intro hc
    obtain ⟨a, b, rfl⟩ := (containsSeg_iff q s).mp hc
    refine ⟨[], a ++ q ++ b, by simp, ?_⟩
    rw [glob_star_iff]
    exact ⟨a, q ++ b, by simp, (glob_lit_star q hq _).mpr ⟨b, rfl⟩⟩

/-- C7 counterexample: the code wraps the query in `*` on both sides
(`fnmatch(name.lower(), f"*{query.lower()}*")`), so `search(entries, "*.pdf")`
keeps `"a.pdf.bak"` — a name that contains `.pdf` but does not end in it —
contradicting the claim that exactly the names ending in `.pdf` are kept. -/
theorem c7_search_counterexample :
    searchEntries [c7Entry] ("*.pdf") = [c7Entry] ∧
    endsWithSeg ((".pdf").data) (pyLower c7Entry.name).data = false := by
  constructor
  · rw [searchEntries, if_neg (by decide)]
    have hm : globMatch (starWrap ("*.pdf")) (pyLower c7Entry.name).data = true := by
      rw [show starWrap ("*.pdf") = '*' :: ('*' :: (((".pdf").data) ++ ['*'])) from rfl]
      exact (glob_contains ((".pdf").data) (by decide) _).mpr (by decide)
    simp [hm]
  · decide

/-- C7 amended: the filter is a case-insensitive *substring*-style glob
match against the entry name — the query is wrapped as `*query*` before
`fnmatch` — so `search(entries, "*.pdf")` keeps exactly the entries whose
lowercased names contain `.pdf` (in particular every name ending in `.pdf`,
but also e.g. `a.pdf.bak`); the empty pattern returns all entries
unchanged. -/
theorem c7_search_amended (entries : List FileEntry) :
    searchEntries entries ("") = entries ∧
    searchEntries entries ("*.pdf") =
      entries.filter (fun e => containsSeg ((".pdf").data) (pyLower e.name).data) := by
  constructor
  · rfl
  · rw [searchEntries, if_neg (by decide)]
    apply List.filter_congr
    intro e _
    rw [show starWrap ("*.pdf") = '*' :: ('*' :: (((".pdf").data) ++ ['*'])) from rfl]
    exact boolEqOfIff (glob_contains ((".pdf").data) (by decide) (pyLower e.name).data)

theorem mem_insertLe {α : Type} (le : α → α → Bool) (a x : α) (l : List α) :
    x ∈ insertLe le a l ↔ x = a ∨ x ∈ l := by
  induction l with
  | nil => simp [insertLe]
  | cons b rest ih =>
    rw [insertLe]
    by_cases h : le a b = true
    · simp [h]
    · simp [h, ih]
      tauto

theorem mem_sortLe {α : Type} (le : α → α → Bool) (x : α) (l : List α) :
    x ∈ sortLe le l ↔ x ∈ l := by
  induction l with
  | nil => simp [sortLe]
  | cons a rest ih => simp [sortLe, mem_insertLe, ih]

/-- C9 counterexample: the hidden-name filter does *not* hold for the
catalog's location listing.  `_load_location_files` enumerates with
`path.rglob("*")`, and pathlib's wildcard is `fnmatch`-based — unlike shell
globbing it matches names starting with a dot — so on a directory holding
`.secret` and `pub.txt` the catalog returns both entries, `.secret`
included, although its name begins with a dot. -/
theorem c9_hidden_counterexample :
    (loadLocationFiles ("outbox") (some c9Children) ("") ("")).map FileEntry.name =
      [".secret", "pub.txt"] ∧
    (FileEntry.mk (".secret") (".secret") 5 (PyFloat.mk 0 1) ("outbox") ("")) ∈
      loadLocationFiles ("outbox") (some c9Children) ("") ("") ∧
    startsDot (".secret") = true := by
  exact ⟨rfl, by decide, rfl⟩

/-- C9 amended: the hidden-name filter holds for the tree-browsing widget —
`_populate_tree` skips every entry whose name starts with a dot at the one
level it populates (its enumeration contains exactly the non-hidden
children) — but not for the catalog's inbox/outbox listing, which
enumerates hidden entries too, as the concrete directory shows. -/
theorem c9_hidden_amended :
    (∀ children : List FSNode, ∀ n, n ∈ populateTree children ↔
      (n ∈ children ∧ startsDot (nodeName n) = false)) ∧
    (FileEntry.mk (".secret") (".secret") 5 (PyFloat.mk 0 1) ("outbox") ("")) ∈
      loadLocationFiles ("outbox") (some c9Children) ("") ("") := by
  constructor
  · intro children n
    rw [populateTree]
    simp [List.mem_filter, mem_sortLe]
  · decide

/-- C9 amended witness: the widget-filter clause instantiated on the
concrete directory — `.secret` is not shown, `pub.txt` is. -/
theorem c9_hidden_amended_witness :
    (¬ (FSNode.file (".secret") 5 0 ∈ populateTree c9Children)) ∧
    (FSNode.file ("pub.txt") 3 0 ∈ populateTree c9Children) := by
  constructor
  · intro hmem
    have h := ((c9_hidden_amended.1 c9Children (FSNode.file (".secret") 5 0)).mp hmem).2
    exact absurd h (by decide)
  · exact (c9_hidden_amended.1 c9Children (FSNode.file ("pub.txt") 3 0)).mpr
      ⟨by simp [c9Children], by decide⟩

/-! ### C4: round-trip lemmas.  Character-level facts first. -/

theorem pred_ne {p : Char → Bool} (c d : Char) (h : p c = true) (hd : p d = false) :
    ¬ c = d := by
  intro e
  subst e
  rw [h] at hd
  cases hd

theorem not_mem_of_all {p : Char → Bool} (c : Char) (hc : p c = false) (l : List Char)
    (h : l.all p = true) : c ∉ l := by
  intro hmem
  have h2 := List.all_eq_true.mp h c hmem
  rw [hc] at h2
  cases h2

theorem takeWhile_app (p : Char → Bool) (xs : List Char) :
    ∀ ys, xs.all p = true → (∀ y, ys.head? = some y → p y = false) →
    (xs ++ ys).takeWhile p = xs ∧ (xs ++ ys).dropWhile p = ys := by
  induction xs with
  | nil =>
    intro ys _ h2
    cases ys with
    | nil => simp
    | cons y ys2 =>
      have h3 := h2 y rfl
      simp [List.takeWhile_cons, List.dropWhile_cons, h3]
  | cons x xs ih =>
    intro ys h h2
    simp only [List.all_cons, Bool.and_eq_true] at h
    have h3 := ih ys h.2 h2
    simp [List.takeWhile_cons, List.dropWhile_cons, h.1, h3.1, h3.2]

theorem natDecimalAux_digits (fuel : Nat) :
    ∀ n, n < fuel → (natDecimalAux fuel n).all isDigitChar = true ∧ natDecimalAux fuel n ≠ [] := by
  induction fuel with
  | zero => intro n h; omega
  | succ f ih =>
    intro n h
    rw [natDecimalAux]
    by_cases h10 : n < 10
    · rw [if_pos h10]
      refine ⟨?_, by simp⟩
      interval_cases n <;> decide
    · rw [if_neg h10]
      have hrec := ih (n / 10) (by omega)
      have hm : n % 10 < 10 := Nat.mod_lt _ (by norm_num)
      have hd : isDigitChar (Char.ofNat (48 + n % 10)) = true := by
        set m := n % 10 with hmdef
        interval_cases m <;> decide
      simp [List.all_append, hrec.1, hd]

theorem scanStr_clean (s : List Char) (h : s.all okStrChar = true) (rest : List Char) :
    scanStr (s ++ dqChar :: rest) = Except.ok (s, rest) := by
  induction s with
  | nil =>
    rw [List.nil_append, scanStr.eq_def]
    simp
  | cons c s2 ih =>
    simp only [List.all_cons, Bool.and_eq_true] at h
    have hc := h.1
    have h1 : (c = dqChar) = false := by
      have hq : okStrChar dqChar = false := by decide
      simp [pred_ne c dqChar hc hq]
    have h2 : (c = bsChar) = false := by
      have hq : okStrChar bsChar = false := by decide
      simp [pred_ne c bsChar hc hq]
    rw [List.cons_append, scanStr.eq_def]
    simp [h1, h2, hc, ih h.2]

theorem parsePath_single (fuel : Nat) (hf : 1 ≤ fuel) (id : String) (hid : bareKeyB id = true) :
    parsePath fuel (id.data ++ [']']) = Except.ok [id] := by
  obtain ⟨f, rfl⟩ : ∃ f, fuel = f + 1 := ⟨fuel - 1, by omega⟩
  have hid2 : id.data ≠ [] ∧ id.data.all bareChar = true := by
    have h2 := hid
    simp only [bareKeyB, Bool.and_eq_true, Bool.not_eq_true', List.isEmpty_eq_false] at h2
    exact ⟨by simpa using h2.1, h2.2⟩
  have htw := takeWhile_app bareChar id.data [']'] hid2.2
    (by intro y hy; simp at hy; subst hy; decide)
  rw [parsePath]
  simp only [htw.1, htw.2]
  rw [if_neg (by simpa using hid2.1)]
  simp [lineEndOk]

theorem parsePath_dotted (fuel : Nat) (hf : 2 ≤ fuel) (pre id : String)
    (hpre : bareKeyB pre = true) (hid : bareKeyB id = true) :
    parsePath fuel (pre.data ++ '.' :: (id.data ++ [']'])) = Except.ok [pre, id] := by
  obtain ⟨f, rfl⟩ : ∃ f, fuel = f + 2 := ⟨fuel - 2, by omega⟩
  have hpre2 : pre.data ≠ [] ∧ pre.data.all bareChar = true := by
    have h2 := hpre
    simp only [bareKeyB, Bool.and_eq_true, Bool.not_eq_true', List.isEmpty_eq_false] at h2
    exact ⟨by simpa using h2.1, h2.2⟩
  have htw := takeWhile_app bareChar pre.data ('.' :: (id.data ++ [']'])) hpre2.2
    (by intro y hy; simp at hy; subst hy; decide)
  rw [show f + 2 = (f + 1) + 1 from rfl, parsePath]
  simp only [htw.1, htw.2]
  rw [if_neg (by simpa using hpre2.1)]
  simp only [show (('.' : Char) = ']') = False by decide, show (('.' : Char) = '.') = True by decide,
    if_false, if_true, ite_false, ite_true]
  rw [parsePath_single (f + 1) (by omega) id hid]

theorem parseLine_header (id : String) (hid : bareKeyB id = true) :
    parseLineC (("[servers." ++ id ++ "]").data) =
      Except.ok (some (TLine.header [("servers"), id])) := by
  have hdata : ("[servers." ++ id ++ "]").data
      = '[' :: ((("servers").data ++ '.' :: (id.data ++ [']'])))  := by
    simp [String.data_append]
  rw [hdata, parseLineC]
  simp only [List.dropWhile_cons, show wsChar '[' = false by decide, Bool.false_eq_true, ite_false,
    show (('[' : Char) = '#') = False by decide, show (('[' : Char) = '[') = True by decide,
    if_false, if_true]
  rw [parsePath_dotted _ (by simp) ("servers") id (by decide) hid]

theorem dropWhile_id_of_head (p : Char → Bool) (l : List Char) (c : Char) (cs : List Char)
    (hl : l = c :: cs) (hc : p c = false) : l.dropWhile p = l := by
  subst hl
  simp [List.dropWhile_cons, hc]

theorem bareChar_not_ws (c : Char) (h : bareChar c = true) : wsChar c = false := by
  by_cases h1 : c = ' '
  · subst h1; exact absurd h (by decide)
  · by_cases h2 : c = tabChar
    · subst h2; exact absurd h (by decide)
    · simp [wsChar, h1, h2]

theorem parseLine_kv_core (k : String) (hk : bareKeyB k = true) (rcs : List Char) (tv : Toml)
    (rc : Char) (rcs2 : List Char) (hrcs : rcs = rc :: rcs2) (hrws : wsChar rc = false)
    (hval : parseValueC rcs = Except.ok (tv, [])) :
    parseLineC ((k ++ " = ").data ++ rcs) = Except.ok (some (TLine.kv k tv)) := by
  obtain ⟨c0, k2, hk0⟩ : ∃ c0 k2, k.data = c0 :: k2 := by
    cases hkd : k.data with
    | nil =>
      exfalso
      have h2 := hk
      simp [bareKeyB, hkd] at h2
    | cons a b => exact ⟨a, b, rfl⟩
  have hkall : k.data.all bareChar = true := by
    have h2 := hk
    simp only [bareKeyB, Bool.and_eq_true] at h2
    exact h2.2
  have hc0 : bareChar c0 = true :=
    List.all_eq_true.mp hkall c0 (by rw [hk0]; exact List.mem_cons_self _ _)
  have hdata : (k ++ " = ").data ++ rcs = k.data ++ (' ' :: '=' :: ' ' :: rcs) := by
    simp [String.data_append]
  have hshape : k.data ++ (' ' :: '=' :: ' ' :: rcs) = c0 :: (k2 ++ (' ' :: '=' :: ' ' :: rcs)) := by
    rw [hk0, List.cons_append]
  have htw := takeWhile_app bareChar k.data (' ' :: '=' :: ' ' :: rcs) hkall
    (by intro y hy; simp at hy; subst hy; decide)
  have hdrop : (k.data ++ (' ' :: '=' :: ' ' :: rcs)).dropWhile wsChar
      = k.data ++ (' ' :: '=' :: ' ' :: rcs) :=
    dropWhile_id_of_head wsChar _ c0 (k2 ++ (' ' :: '=' :: ' ' :: rcs)) hshape
      (bareChar_not_ws c0 hc0)
  rw [hdata, parseLineC]
  simp only [hdrop]
  rw [hshape]
  have hns : (c0 = '#') = false := by simp [pred_ne c0 '#' hc0 (by decide)]
  have hnb : (c0 = '[') = false := by simp [pred_ne c0 '[' hc0 (by decide)]
  simp only [hns, hnb, Bool.false_eq_true, ite_false, if_false]
  rw [← hshape, htw.1, htw.2]
  rw [if_neg (by rw [hk0]; simp)]
  simp only [List.dropWhile_cons, show wsChar ' ' = true by decide,
    show wsChar '=' = false by decide, ite_true, ite_false, if_true, if_false,
    Bool.false_eq_true, Bool.true_eq_false]
  have hdrop2 : List.dropWhile wsChar rcs = rcs :=
    dropWhile_id_of_head wsChar rcs rc rcs2 hrcs hrws
  rw [hdrop2, hval]
  simp [lineEndOk]

theorem digit_tokChar (c : Char) (h : isDigitChar c = true) : tokChar c = true := by
  by_cases h1 : c = ' '
  · subst h1; exact absurd h (by decide)
  · by_cases h2 : c = tabChar
    · subst h2; exact absurd h (by decide)
    · by_cases h3 : c = '#'
      · subst h3; exact absurd h (by decide)
      · simp [tokChar, wsChar, h1, h2, h3]

theorem digit_not_ws (c : Char) (h : isDigitChar c = true) : wsChar c = false := by
  by_cases h1 : c = ' '
  · subst h1; exact absurd h (by decide)
  · by_cases h2 : c = tabChar
    · subst h2; exact absurd h (by decide)
    · simp [wsChar, h1, h2]

theorem takeWhile_all (p : Char → Bool) (cs : List Char) (h : cs.all p = true) :
    cs.takeWhile p = cs ∧ cs.dropWhile p = [] := by
  have h2 := takeWhile_app p cs [] h (by intro y hy; simp at hy)
  simpa using h2

theorem parseValue_digits (cs : List Char) (hne : cs ≠ []) (hall : cs.all isDigitChar = true) :
    parseValueC cs = Except.ok (Toml.vint (digitsToNat cs : Int), []) := by
  obtain ⟨c, rest, rfl⟩ : ∃ c rest, cs = c :: rest := by
    cases cs with
    | nil => exact absurd rfl hne
    | cons a b => exact ⟨a, b, rfl⟩
  have hc : isDigitChar c = true := by
    simp only [List.all_cons, Bool.and_eq_true] at hall
    exact hall.1
  have htok : (c :: rest).all tokChar = true := by
    rw [List.all_eq_true] at hall ⊢
    exact fun x hx => digit_tokChar x (hall x hx)
  have htw := takeWhile_all tokChar (c :: rest) htok
  have hcdq : ¬ (c = dqChar) := pred_ne c dqChar hc (by decide)
  have hnt : ¬ ((c :: rest) = ("true").data) := by
    intro he
    have h2 : c = 't' := by
      have h3 := he
      simp only [show ("true").data = 't' :: ['r', 'u', 'e'] from rfl, List.cons.injEq] at h3
      exact h3.1
    exact absurd (h2 ▸ hc) (by decide)
  have hnf : ¬ ((c :: rest) = ("false").data) := by
    intro he
    have h2 : c = 'f' := by
      have h3 := he
      simp only [show ("false").data = 'f' :: ['a', 'l', 's', 'e'] from rfl, List.cons.injEq] at h3
      exact h3.1
    exact absurd (h2 ▸ hc) (by decide)
  have hvd : digitsVal (c :: rest) = some (digitsToNat (c :: rest)) := by
    simp [digitsVal, hall]
  have hmt : parseIntTok (c :: rest) = some (digitsToNat (c :: rest) : Int) := by
    rw [parseIntTok]
    rw [if_neg (pred_ne c '-' hc (by decide)), if_neg (pred_ne c '+' hc (by decide)), hvd]
    rfl
  rw [parseValueC]
  rw [if_neg hcdq]
  simp only [htw.1, htw.2]
  rw [if_neg hnt, if_neg hnf, hmt]

theorem parseValue_render (v : PyVal) (r : String) (hr : renderVal v = some r)
    (hv : cleanVal v = true) :
    ∃ tv rc rcs2, r.data = rc :: rcs2 ∧ wsChar rc = false ∧
      parseValueC r.data = Except.ok (tv, []) := by
  cases v with
  | pbool b =>
    cases b
    · have hr2 : r = "false" := by
        have h2 := hr
        simp only [renderVal, Option.some.injEq] at h2
        exact h2.symm
      subst hr2
      exact ⟨Toml.vbool false, 'f', _, rfl, by decide, by rfl⟩
    · have hr2 : r = "true" := by
        have h2 := hr
        simp only [renderVal, Option.some.injEq] at h2
        exact h2.symm
      subst hr2
      exact ⟨Toml.vbool true, 't', _, rfl, by decide, by rfl⟩
  | pint n =>
    have hr2 : r = intDecimalStr n := by
      have h2 := hr
      simp only [renderVal, Option.some.injEq] at h2
      exact h2.symm
    subst hr2
    by_cases hn : n < 0
    · rw [show intDecimalStr n = "-" ++ natDecimalStr (-n).toNat from by
        rw [intDecimalStr, if_pos hn]]
      have hd := natDecimalAux_digits ((-n).toNat + 1) (-n).toNat (by omega)
      have hdata2 : ("-" ++ natDecimalStr (-n).toNat).data
          = '-' :: natDecimalAux ((-n).toNat + 1) (-n).toNat := by
        simp [String.data_append, natDecimalStr]
      refine ⟨Toml.vint (-(digitsToNat (natDecimalAux ((-n).toNat + 1) (-n).toNat) : Int)),
        '-', natDecimalAux ((-n).toNat + 1) (-n).toNat, hdata2, by decide, ?_⟩
      rw [hdata2]
      have hdall : (natDecimalAux ((-n).toNat + 1) (-n).toNat).all tokChar = true := by
        rw [List.all_eq_true]
        exact fun x hx => digit_tokChar x (List.all_eq_true.mp hd.1 x hx)
      have htok : ('-' :: natDecimalAux ((-n).toNat + 1) (-n).toNat).all tokChar = true := by
        rw [List.all_cons, hdall]
        decide
      have htw := takeWhile_all tokChar _ htok
      have hvd : digitsVal (natDecimalAux ((-n).toNat + 1) (-n).toNat)
          = some (digitsToNat (natDecimalAux ((-n).toNat + 1) (-n).toNat)) := by
        have hne2 : (natDecimalAux ((-n).toNat + 1) (-n).toNat).isEmpty = false := by
          cases hcs : natDecimalAux ((-n).toNat + 1) (-n).toNat with
          | nil => exact absurd hcs hd.2
          | cons a b => rfl
        simp [digitsVal, hd.1, hne2]
      have hnt : ¬ (('-' :: natDecimalAux ((-n).toNat + 1) (-n).toNat) = ("true").data) := by
        intro he
        have h3 := he
        simp only [show ("true").data = 't' :: ['r', 'u', 'e'] from rfl, List.cons.injEq] at h3
        exact absurd h3.1 (by decide)
      have hnf : ¬ (('-' :: natDecimalAux ((-n).toNat + 1) (-n).toNat) = ("false").data) := by
        intro he
        have h3 := he
        simp only [show ("false").data = 'f' :: ['a', 'l', 's', 'e'] from rfl, List.cons.injEq] at h3
        exact absurd h3.1 (by decide)
      have hmt : parseIntTok ('-' :: natDecimalAux ((-n).toNat + 1) (-n).toNat)
          = some (-(digitsToNat (natDecimalAux ((-n).toNat + 1) (-n).toNat) : Int)) := by
        rw [parseIntTok, if_pos rfl, hvd]
        rfl
      rw [parseValueC]
      rw [if_neg (by decide : ¬ (('-' : Char) = dqChar))]
      simp only [htw.1, htw.2]
      rw [if_neg hnt, if_neg hnf, hmt]
    · rw [show intDecimalStr n = natDecimalStr n.toNat from by rw [intDecimalStr, if_neg hn]]
      have hd := natDecimalAux_digits (n.toNat + 1) n.toNat (by omega)
      obtain ⟨c, rest, hcs⟩ : ∃ c rest, natDecimalAux (n.toNat + 1) n.toNat = c :: rest := by
        cases hcs : natDecimalAux (n.toNat + 1) n.toNat with
        | nil => exact absurd hcs hd.2
        | cons a b => exact ⟨a, b, rfl⟩
      have hc : isDigitChar c = true := by
        have h2 := hd.1
        rw [hcs, List.all_cons, Bool.and_eq_true] at h2
        exact h2.1
      refine ⟨Toml.vint (digitsToNat (natDecimalAux (n.toNat + 1) n.toNat) : Int), c, rest,
        by simp [natDecimalStr, hcs], digit_not_ws c hc, ?_⟩
      rw [show (natDecimalStr n.toNat).data = natDecimalAux (n.toNat + 1) n.toNat from rfl]
      exact parseValue_digits _ hd.2 hd.1
  | pstr s =>
    have hr2 : r = String.mk [dqChar] ++ s ++ String.mk [dqChar] := by
      have h2 := hr
      simp only [renderVal, Option.some.injEq] at h2
      exact h2.symm
    subst hr2
    have hsok : s.data.all okStrChar = true := by
      simpa [cleanVal] using hv
    refine ⟨Toml.vstr s, dqChar, s.data ++ [dqChar], by simp [String.data_append], by decide, ?_⟩
    rw [show (String.mk [dqChar] ++ s ++ String.mk [dqChar]).data
        = dqChar :: (s.data ++ dqChar :: []) from by simp [String.data_append]]
    rw [parseValueC]
    rw [if_pos rfl]
    rw [scanStr_clean s.data hsok []]
  | pother =>
    exfalso
    simp [renderVal] at hr

theorem parseLine_field (k : String) (hk : bareKeyB k = true) (v : PyVal) (r : String)
    (hr : renderVal v = some r) (hv : cleanVal v = true) :
    ∃ tv, parseLineC ((k ++ " = " ++ r).data) = Except.ok (some (TLine.kv k tv)) := by
  obtain ⟨tv, rc, rcs2, hdata, hws, hval⟩ := parseValue_render v r hr hv
  refine ⟨tv, ?_⟩
  have hassoc : (k ++ " = " ++ r).data = (k ++ " = ").data ++ r.data := by
    simp [String.data_append]
  rw [hassoc]
  exact parseLine_kv_core k hk r.data tv rc rcs2 hdata hws hval

theorem lookupA_eq_none {α : Type} (k : String) (l : List (String × α)) :
    lookupA k l = none ↔ k ∉ l.map Prod.fst := by
  induction l with
  | nil => simp [lookupA]
  | cons p rest ih =>
    rw [lookupA]
    by_cases hp : p.1 = k
    · simp [hp]
    · rw [if_neg hp, ih]
      simp only [List.map_cons, List.mem_cons, not_or]
      constructor
      · intro h2
        exact ⟨fun he => hp he.symm, h2⟩
      · intro h2
        exact h2.2

theorem lookupA_append_self {α : Type} (k : String) (v : α) (l : List (String × α))
    (h : lookupA k l = none) : lookupA k (l ++ [(k, v)]) = some v := by
  induction l with
  | nil => simp [lookupA]
  | cons p rest ih =>
    rw [lookupA] at h
    rw [List.cons_append, lookupA]
    by_cases hp : p.1 = k
    · rw [if_pos hp] at h
      cases h
    · rw [if_neg hp] at h
      rw [if_neg hp]
      exact ih h

theorem replaceA_append_self {α : Type} (k : String) (v w : α) (l : List (String × α))
    (h : lookupA k l = none) : replaceA k w (l ++ [(k, v)]) = l ++ [(k, w)] := by
  induction l with
  | nil => simp [replaceA]
  | cons p rest ih =>
    rw [lookupA] at h
    by_cases hp : p.1 = k
    · rw [if_pos hp] at h
      cases h
    · rw [if_neg hp] at h
      rw [List.cons_append, replaceA, if_neg hp, ih h, List.cons_append]

theorem createPath_state (cfg done : List (String × Toml)) (id : String)
    (hcfg : (cfg = [] ∧ done = []) ∨ cfg = [(("servers"), Toml.vtable done)])
    (hdone : lookupA id done = none) :
    createPath cfg [("servers"), id] =
      Except.ok [(("servers"), Toml.vtable (done ++ [(id, Toml.vtable [])]))] := by
  rcases hcfg with ⟨rfl, rfl⟩ | rfl
  · rw [createPath]
    simp [lookupA, createPath]
  · rw [createPath]
    have hl : lookupA ("servers") [(("servers"), Toml.vtable done)]
        = some (Toml.vtable done) := by
      rw [lookupA, if_pos rfl]
    simp only [hl]
    rw [createPath]
    simp only [hdone]
    simp [replaceA]

theorem insertAt_server (done : List (String × Toml)) (id : String)
    (cur : List (String × Toml)) (hdone : lookupA id done = none) (k : String) (v : Toml)
    (hk : lookupA k cur = none) :
    insertAt [(("servers"), Toml.vtable (done ++ [(id, Toml.vtable cur)]))] [("servers"), id] k v
      = Except.ok [(("servers"),
          Toml.vtable (done ++ [(id, Toml.vtable (cur ++ [(k, v)]))]))] := by
  rw [insertAt]
  have hl : lookupA ("servers")
        [(("servers"), Toml.vtable (done ++ [(id, Toml.vtable cur)]))]
      = some (Toml.vtable (done ++ [(id, Toml.vtable cur)])) := by
    rw [lookupA, if_pos rfl]
  simp only [hl]
  rw [insertAt]
  simp only [lookupA_append_self id (Toml.vtable cur) done hdone]
  rw [insertAt]
  simp only [hk]
  rw [replaceA_append_self id (Toml.vtable cur) (Toml.vtable (cur ++ [(k, v)])) done hdone]
  simp [replaceA]

theorem parseLine_blank : parseLineC (("") : String).data = Except.ok none := rfl

theorem parseLine_comment :
    parseLineC (("# Sync Shuttle - Server Configuration") : String).data = Except.ok none := rfl

theorem splitOnChar_no_sep (sep : Char) (x : List Char) (h : sep ∉ x) :
    splitOnChar sep x = [x] := by
  induction x with
  | nil => rfl
  | cons c x2 ih =>
    have hcne : ¬ (c = sep) := fun he => h (by rw [he]; exact List.mem_cons_self _ _)
    rw [splitOnChar]
    rw [if_neg hcne]
    rw [ih (fun hm => h (List.mem_cons_of_mem _ hm))]

theorem splitOnChar_sep_append (sep : Char) (x : List Char) (h : sep ∉ x) (rest : List Char) :
    splitOnChar sep (x ++ sep :: rest) = x :: splitOnChar sep rest := by
  induction x with
  | nil =>
    rw [List.nil_append, splitOnChar, if_pos rfl]
  | cons c x2 ih =>
    have hcne : ¬ (c = sep) := fun he => h (by rw [he]; exact List.mem_cons_self _ _)
    rw [List.cons_append, splitOnChar]
    rw [if_neg hcne]
    rw [ih (fun hm => h (List.mem_cons_of_mem _ hm))]

theorem splitNl_joinNl (lines : List String) (h : ∀ l ∈ lines, nlChar ∉ l.data)
    (hne : lines ≠ []) : splitNl (joinNl lines) = lines := by
  induction lines with
  | nil => exact absurd rfl hne
  | cons l rest ih =>
    cases rest with
    | nil =>
      rw [splitNl, joinNl]
      rw [show joinC ([l].map String.data) = l.data from rfl]
      rw [show (String.mk l.data).data = l.data from rfl]
      rw [splitOnChar_no_sep nlChar l.data (h l (List.mem_cons_self _ _))]
      rfl
    | cons l2 rest2 =>
      rw [splitNl, joinNl]
      rw [show joinC ((l :: l2 :: rest2).map String.data)
          = l.data ++ nlChar :: joinC ((l2 :: rest2).map String.data) from rfl]
      rw [show (String.mk (l.data ++ nlChar :: joinC ((l2 :: rest2).map String.data))).data
          = l.data ++ nlChar :: joinC ((l2 :: rest2).map String.data) from rfl]
      rw [splitOnChar_sep_append nlChar l.data (h l (List.mem_cons_self _ _))]
      have ih2 := ih (fun x hx => h x (List.mem_cons_of_mem _ hx)) (by simp)
      rw [splitNl, joinNl] at ih2
      rw [show (String.mk (joinC ((l2 :: rest2).map String.data))).data
          = joinC ((l2 :: rest2).map String.data) from rfl] at ih2
      rw [List.map_cons, ih2]

theorem bareKey_no_nl (s : String) (h : bareKeyB s = true) : nlChar ∉ s.data := by
  have h2 : s.data.all bareChar = true := by
    simp only [bareKeyB, Bool.and_eq_true] at h
    exact h.2
  exact not_mem_of_all nlChar (by decide) s.data h2

theorem renderVal_no_nl (v : PyVal) (r : String) (hr : renderVal v = some r)
    (hv : cleanVal v = true) : nlChar ∉ r.data := by
  cases v with
  | pbool b =>
    cases b
    · have hr2 : r = "false" := by
        have h2 := hr
        simp only [renderVal, Option.some.injEq] at h2
        exact h2.symm
      subst hr2
      decide
    · have hr2 : r = "true" := by
        have h2 := hr
        simp only [renderVal, Option.some.injEq] at h2
        exact h2.symm
      subst hr2
      decide
  | pint n =>
    have hr2 : r = intDecimalStr n := by
      have h2 := hr
      simp only [renderVal, Option.some.injEq] at h2
      exact h2.symm
    subst hr2
    rw [intDecimalStr]
    by_cases hn : n < 0
    · rw [if_pos hn]
      intro hmem
      rw [show ("-" ++ natDecimalStr (-n).toNat).data
          = ("-").data ++ natDecimalAux ((-n).toNat + 1) (-n).toNat from by
        simp [String.data_append, natDecimalStr]] at hmem
      rw [List.mem_append] at hmem
      have hd := natDecimalAux_digits ((-n).toNat + 1) (-n).toNat (by omega)
      cases hmem with
      | inl hm => exact absurd hm (by decide)
      | inr hm => exact not_mem_of_all nlChar (by decide) _ hd.1 hm
    · rw [if_neg hn]
      have hd := natDecimalAux_digits (n.toNat + 1) n.toNat (by omega)
      exact not_mem_of_all nlChar (by decide) _ hd.1
  | pstr s =>
    have hr2 : r = String.mk [dqChar] ++ s ++ String.mk [dqChar] := by
      have h2 := hr
      simp only [renderVal, Option.some.injEq] at h2
      exact h2.symm
    subst hr2
    intro hmem
    rw [show (String.mk [dqChar] ++ s ++ String.mk [dqChar]).data
        = [dqChar] ++ (s.data ++ [dqChar]) from by simp [String.data_append]] at hmem
    rw [List.mem_append, List.mem_append] at hmem
    have hsok : s.data.all okStrChar = true := by
      simpa [cleanVal] using hv
    rcases hmem with hm | hm | hm
    · exact absurd hm (by decide)
    · exact not_mem_of_all nlChar (by decide) _ hsok hm
    · exact absurd hm (by decide)
  | pother =>
    exfalso
    simp [renderVal] at hr

theorem tomlLines_no_nl (servers : Registry)
    (hids : ∀ p ∈ servers, bareKeyB p.1 = true)
    (hfields : ∀ p ∈ servers, ∀ q ∈ p.2, bareKeyB q.1 = true ∧ cleanVal q.2 = true) :
    ∀ l ∈ tomlLines servers, nlChar ∉ l.data := by
  intro l hl
  rw [tomlLines] at hl
  rw [List.mem_append] at hl
  cases hl with
  | inl hl2 =>
    rw [List.mem_cons] at hl2
    cases hl2 with
    | inl he => subst he; decide
    | inr he =>
      simp only [List.mem_singleton] at he
      subst he
      decide
  | inr hl2 =>
    rw [List.mem_flatMap] at hl2
    obtain ⟨p, hp, hline⟩ := hl2
    rw [serverLines, List.mem_cons] at hline
    cases hline with
    | inl he =>
      subst he
      intro hmem
      rw [show ("[servers." ++ p.1 ++ "]").data
          = ("[servers.").data ++ (p.1.data ++ ("]").data) from by
        simp [String.data_append]] at hmem
      rw [List.mem_append, List.mem_append] at hmem
      rcases hmem with hm | hm | hm
      · exact absurd hm (by decide)
      · exact bareKey_no_nl p.1 (hids p hp) hm
      · exact absurd hm (by decide)
    | inr he =>
      rw [List.mem_append] at he
      cases he with
      | inl he2 =>
        rw [List.mem_filterMap] at he2
        obtain ⟨q, hq, hfl⟩ := he2
        cases hrv : renderVal q.2 with
        | none => rw [fieldLine, hrv] at hfl; cases hfl
        | some r =>
          rw [fieldLine, hrv] at hfl
          have hfl2 : q.1 ++ " = " ++ r = l := by simpa using hfl
          subst hfl2
          intro hmem
          rw [show (q.1 ++ " = " ++ r).data = q.1.data ++ ((" = ").data ++ r.data) from by
            simp [String.data_append]] at hmem
          rw [List.mem_append, List.mem_append] at hmem
          rcases hmem with hm | hm | hm
          · exact bareKey_no_nl q.1 ((hfields p hp q hq).1) hm
          · exact absurd hm (by decide)
          · exact renderVal_no_nl q.2 r hrv ((hfields p hp q hq).2) hm
      | inr he2 =>
        simp only [List.mem_singleton] at he2
        subst he2
        decide

theorem runLines_fields (done : List (String × Toml)) (id : String)
    (hdone : lookupA id done = none) :
    ∀ (fields : Server) (cur : List (String × Toml)) (moreLines : List String),
    (∀ p ∈ fields, bareKeyB p.1 = true ∧ cleanVal p.2 = true) →
    (cur.map Prod.fst ++ fields.map Prod.fst).Nodup →
    ∃ cur2,
      runLines [(("servers"), Toml.vtable (done ++ [(id, Toml.vtable cur)]))] [("servers"), id]
          ((fields.filterMap (fun p => fieldLine p.1 p.2)) ++ moreLines)
        = runLines [(("servers"), Toml.vtable (done ++ [(id, Toml.vtable cur2)]))]
            [("servers"), id] moreLines := by
  intro fields
  induction fields with
  | nil =>
    intro cur moreLines _ _
    exact ⟨cur, by rw [List.filterMap_nil, List.nil_append]⟩
  | cons q rest ih =>
    intro cur moreLines hf hnd
    obtain ⟨k, v⟩ := q
    cases hr : renderVal v with
    | none =>
      have hstep : fieldLine k v = none := by rw [fieldLine, hr]; rfl
      rw [List.filterMap_cons, hstep]
      have hnd2 : (cur.map Prod.fst ++ rest.map Prod.fst).Nodup := by
        refine List.Nodup.sublist ?_ hnd
        exact List.Sublist.append_left (List.sublist_cons_self _ _) _
      exact ih cur moreLines (fun p hp => hf p (List.mem_cons_of_mem _ hp)) hnd2
    | some r =>
      have hkb : bareKeyB k = true := (hf (k, v) (List.mem_cons_self _ _)).1
      have hcv : cleanVal v = true := (hf (k, v) (List.mem_cons_self _ _)).2
      obtain ⟨tv, hline⟩ := parseLine_field k hkb v r hr hcv
      have hstep : fieldLine k v = some (k ++ " = " ++ r) := by rw [fieldLine, hr]; rfl
      rw [List.filterMap_cons, hstep]
      have hkcur : lookupA k cur = none := by
        rw [lookupA_eq_none]
        intro hmem
        have hd := (List.nodup_append.mp hnd).2.2
        exact hd hmem (by simp)
      rw [List.cons_append, runLines]
      simp only [hline]
      simp only [insertAt_server done id cur hdone k tv hkcur]
      have hnd3 : ((cur ++ [(k, tv)]).map Prod.fst ++ rest.map Prod.fst).Nodup := by
        simp only [List.map_append, List.map_cons, List.map_nil]
        rw [List.append_assoc]
        simpa using hnd
      obtain ⟨cur2, hrun⟩ := ih (cur ++ [(k, tv)]) moreLines
        (fun p hp => hf p (List.mem_cons_of_mem _ hp)) hnd3
      exact ⟨cur2, hrun⟩

theorem runLines_block (cfg done : List (String × Toml)) (id : String) (fields : Server)
    (moreLines : List String) (path : List String)
    (hcfg : (cfg = [] ∧ done = []) ∨ cfg = [(("servers"), Toml.vtable done)])
    (hid : bareKeyB id = true) (hdone : lookupA id done = none)
    (hf : ∀ p ∈ fields, bareKeyB p.1 = true ∧ cleanVal p.2 = true)
    (hfnd : (fields.map Prod.fst).Nodup) :
    ∃ cur2, runLines cfg path (serverLines id fields ++ moreLines)
      = runLines [(("servers"), Toml.vtable (done ++ [(id, Toml.vtable cur2)]))]
          [("servers"), id] moreLines := by
  rw [serverLines, List.cons_append, runLines]
  simp only [parseLine_header id hid]
  simp only [createPath_state cfg done id hcfg hdone]
  rw [List.append_assoc]
  obtain ⟨cur2, hrun⟩ := runLines_fields done id hdone fields [] ([""] ++ moreLines) hf
    (by simpa using hfnd)
  rw [hrun]
  rw [show ([""] ++ moreLines) = (("") :: moreLines) from rfl]
  rw [runLines]
  simp only [parseLine_blank]
  exact ⟨cur2, rfl⟩

theorem runLines_blocks :
    ∀ (rest : Registry) (done : List (String × Toml)) (path : List String),
    (∀ p ∈ rest, bareKeyB p.1 = true) →
    ((done.map Prod.fst ++ rest.map Prod.fst).Nodup) →
    (∀ p ∈ rest, (∀ q ∈ p.2, bareKeyB q.1 = true ∧ cleanVal q.2 = true) ∧
      (p.2.map Prod.fst).Nodup) →
    ∃ done2, done2.map Prod.fst = done.map Prod.fst ++ rest.map Prod.fst ∧
      runLines [(("servers"), Toml.vtable done)] path
          (rest.flatMap (fun p => serverLines p.1 p.2))
        = Except.ok [(("servers"), Toml.vtable done2)] := by
  intro rest
  induction rest with
  | nil =>
    intro done path _ _ _
    exact ⟨done, by simp, by rw [List.flatMap_nil, runLines]⟩
  | cons s rest2 ih =>
    intro done path hids hnd hfs
    obtain ⟨id, fields⟩ := s
    rw [List.flatMap_cons]
    have hdone : lookupA id done = none := by
      rw [lookupA_eq_none]
      intro hmem
      have hd := (List.nodup_append.mp hnd).2.2
      exact hd hmem (by simp)
    obtain ⟨cur2, hrun⟩ := runLines_block [(("servers"), Toml.vtable done)] done id fields
      (rest2.flatMap (fun p => serverLines p.1 p.2)) path (Or.inr rfl)
      (hids (id, fields) (List.mem_cons_self _ _)) hdone
      ((hfs (id, fields) (List.mem_cons_self _ _)).1)
      ((hfs (id, fields) (List.mem_cons_self _ _)).2)
    rw [hrun]
    have hnd2 : ((done ++ [(id, Toml.vtable cur2)]).map Prod.fst
        ++ rest2.map Prod.fst).Nodup := by
      simp only [List.map_append, List.map_cons, List.map_nil]
      rw [List.append_assoc]
      simpa using hnd
    obtain ⟨done2, hkeys, hrun2⟩ := ih (done ++ [(id, Toml.vtable cur2)]) [("servers"), id]
      (fun p hp => hids p (List.mem_cons_of_mem _ hp)) hnd2
      (fun p hp => hfs p (List.mem_cons_of_mem _ hp))
    refine ⟨done2, ?_, hrun2⟩
    rw [hkeys]
    simp

/-- C4 counterexample: the claim quantifies over all registries with
boolean/integer/string field values, but `write_toml` emits string values
unescaped.  A value containing a double quote produces the line
`name = "x"y"`, which `tomllib` rejects, so reloading fails (in the Python
process, an uncaught `TOMLDecodeError`) instead of yielding the same id
list. -/
theorem c4_roundtrip_counterexample :
    c4CounterRegistry.map Prod.fst = [("abc")] ∧
    roundtripIds c4CounterRegistry = Except.error PErr.bad :=
  ⟨rfl, rfl⟩

/-- C4 amended: for every registry whose server ids and field keys are
nonempty strings of ASCII letters, digits, dashes and underscores (TOML
bare keys — ids added through `add_server` qualify), whose per-server field
keys are duplicate-free, and whose string field values contain no double
quote, backslash, or control character other than tab, serializing,
reloading, and listing yields the same N server ids in the same order.
(Id uniqueness is inherent — the registry is a dict — and appears here as
the `Nodup` hypothesis of the association-list model.) -/
theorem c4_roundtrip_amended (servers : Registry)
    (hids : ∀ p ∈ servers, bareKeyB p.1 = true)
    (hnodup : (servers.map Prod.fst).Nodup)
    (hfields : ∀ p ∈ servers,
      (∀ q ∈ p.2, bareKeyB q.1 = true ∧ cleanVal q.2 = true) ∧
      (p.2.map Prod.fst).Nodup) :
    roundtripIds servers = Except.ok (servers.map Prod.fst) := by
  rw [roundtripIds, parseConfig, writeTomlDoc]
  rw [splitNl_joinNl (tomlLines servers)
    (tomlLines_no_nl servers hids (fun p hp => (hfields p hp).1))
    (by rw [tomlLines]; simp)]
  rw [tomlLines]
  rw [show ((["# Sync Shuttle - Server Configuration", ""] : List String)
        ++ servers.flatMap (fun p => serverLines p.1 p.2))
      = ("# Sync Shuttle - Server Configuration")
        :: (("") :: servers.flatMap (fun p => serverLines p.1 p.2)) from rfl]
  rw [runLines, parseLine_comment, runLines, parseLine_blank]
  cases servers with
  | nil =>
    rw [List.flatMap_nil, runLines]
    rfl
  | cons s rest =>
    obtain ⟨id, fields⟩ := s
    rw [List.flatMap_cons]
    obtain ⟨cur2, hrun⟩ := runLines_block [] [] id fields
      (rest.flatMap (fun p => serverLines p.1 p.2)) [] (Or.inl ⟨rfl, rfl⟩)
      (hids (id, fields) (List.mem_cons_self _ _)) rfl
      ((hfields (id, fields) (List.mem_cons_self _ _)).1)
      ((hfields (id, fields) (List.mem_cons_self _ _)).2)
    rw [hrun]
    obtain ⟨done2, hkeys, hrun2⟩ := runLines_blocks rest
      (([] : List (String × Toml)) ++ [(id, Toml.vtable cur2)]) [("servers"), id]
      (fun p hp => hids p (List.mem_cons_of_mem _ hp))
      (by simpa using hnodup)
      (fun p hp => hfields p (List.mem_cons_of_mem _ hp))
    rw [hrun2]
    show Except.ok (listIds [(("servers"), Toml.vtable done2)])
        = Except.ok (List.map Prod.fst ((id, fields) :: rest))
    have hlook : lookupA ("servers") [(("servers"), Toml.vtable done2)]
        = some (Toml.vtable done2) := by
      rw [lookupA, if_pos rfl]
    simp only [listIds, hlook]
    rw [hkeys]
    simp

/-- C4 amended witness: the round-trip instantiated on a concrete two-server
registry. -/
theorem c4_roundtrip_amended_witness :
    roundtripIds c4ExampleRegistry = Except.ok [("alpha"), ("beta-1")] := by
  have h := c4_roundtrip_amended c4ExampleRegistry (by decide) (by decide) (by decide)
  exact h.trans (by rfl)
